import Mathlib

/-!
Verification development for the essentia-api similarity service
(src/essentia-api.py, src/lib/app.py, src/lib/tracks_db.py, src/lib/cue.py,
src/lib/config.py).

Strings are modelled as lists of characters.  Floating-point numbers are
modelled as rationals; where the source computes a square root (the Euclidean
distance and the similarity normalisation by max_sim = sqrt(13)), the
development tracks the square of the quantity instead, which determines the
original value uniquely because every quantity involved is non-negative.
Fallible operations (Python exceptions such as ZeroDivisionError) are
modelled with Option.
-/

namespace EssentiaApi

/-- Decidable test that the second list starts with the first. -/
def startsWith : List Char → List Char → Bool
  | [], _ => true
  | _ :: _, [] => false
  | p :: ps, c :: cs => p == c && startsWith ps cs

/-- Index of the first occurrence of the pattern as a contiguous substring,
mirroring the find method of Python strings (none standing for -1). -/
def subFind (pat : List Char) : List Char → Option Nat
  | [] => if pat = [] then some 0 else none
  | c :: t => if startsWith pat (c :: t) then some 0 else (subFind pat t).map (· + 1)

/-- Containment of a contiguous substring. -/
def containsSub (s pat : List Char) : Bool :=
  (subFind pat s).isSome

/-- Replacement of every non-overlapping occurrence of a pattern, scanning
left to right, mirroring the replace method of Python strings for a non-empty
pattern (the source only ever replaces non-empty patterns). -/
def replaceSub (pat rep : List Char) : List Char → List Char
  | [] => []
  | c :: t =>
    if pat ≠ [] ∧ startsWith pat (c :: t) then
      rep ++ replaceSub pat rep ((c :: t).drop pat.length)
    else
      c :: replaceSub pat rep t
termination_by s => s.length
decreasing_by
  · rename_i h
    simp only [List.length_drop, List.length_cons]
    have hp : 0 < pat.length := List.length_pos.mpr h.1
    omega
  · simp only [List.length_cons]
    omega

/-- Replacement of a single character by a string, mirroring the replace
method of Python strings for a one-character pattern. -/
def replaceChar (c : Char) (rep : List Char) (s : List Char) : List Char :=
  s.flatMap (fun x => if x == c then rep else [x])

/-- Splitting at every occurrence of a separator character, mirroring the
split method of Python strings. -/
def splitOnChar (sep : Char) : List Char → List (List Char)
  | [] => [[]]
  | c :: t =>
    if c == sep then [] :: splitOnChar sep t
    else
      match splitOnChar sep t with
      | [] => [[c]]
      | h :: r => (c :: h) :: r

/-- Safe characters of urllib.parse.quote with its default safe string: ASCII
letters, digits, underscore, dot, hyphen, tilde, and the slash. -/
def isSafeChar (c : Char) : Bool :=
  c.isAlpha || c.isDigit || c == '_' || c == '.' || c == '-' || c == '~' || c == '/'

/-- Uppercase hexadecimal digit for a value below 16. -/
def hexDigit (n : Nat) : Char :=
  if n < 10 then Char.ofNat (48 + n) else Char.ofNat (55 + n)

/-- Percent escape of one byte value. -/
def percentByte (n : Nat) : List Char :=
  ['%', hexDigit (n / 16 % 16), hexDigit (n % 16)]

/-- UTF-8 byte values of a character. -/
def utf8Bytes (c : Char) : List Nat :=
  let n := c.toNat
  if n < 128 then [n]
  else if n < 2048 then [192 + n / 64, 128 + n % 64]
  else if n < 65536 then [224 + n / 4096, 128 + n / 64 % 64, 128 + n % 64]
  else [240 + n / 262144, 128 + n / 4096 % 64, 128 + n / 64 % 64, 128 + n % 64]

/-- Percent-quoting mirroring urllib.parse.quote with the default safe
characters: safe characters pass through, every other character is encoded
as UTF-8 and each byte written as a percent escape. -/
def percentQuote (s : List Char) : List Char :=
  s.flatMap (fun c => if isSafeChar c then [c] else (utf8Bytes c).flatMap percentByte)

/-- Reserved marker for cue tracks (cue.py, line 11). -/
def CUE_TRACK : List Char := ".CUE_TRACK.".toList

/-- Embedding of convert_from_cue_path (cue.py, lines 15-19).  Python find
returns -1 when the character is absent, which fails the strict positivity
test just like an absent index does here. -/
def convert_from_cue_path (path : List Char) : List Char :=
  match path.findIdx? (· == '#') with
  | some hsh => if hsh > 0 then replaceChar '#' CUE_TRACK path ++ ".mp3".toList else path
  | none => path

/-- Embedding of convert_to_cue_url (cue.py, lines 22-28).  The source indexes
parts zero and one of the split result; inside the guarded branch the split
always has at least two parts, so the total default values used here are
unreachable. -/
def convert_to_cue_url (path : List Char) : List Char :=
  match subFind CUE_TRACK path with
  | some cue =>
    if cue > 0 then
      let parts := splitOnChar '#' (replaceSub CUE_TRACK ['#'] path)
      let out := "file://".toList ++ percentQuote (parts.headD []) ++ '#' :: parts.getD 1 []
      out.take (out.length - 4)
    else path
  | none => path

/-- Album tag list (tracks_db.py, line 23). -/
def album_rem : List (List Char) :=
  ["anniversary edition", "deluxe edition", "expanded edition", "extended edition",
   "special edition", "deluxe", "deluxe version", "extended deluxe", "super deluxe",
   "re-issue", "remastered", "mixed", "remixed and remastered"].map String.toList

/-- Artist tag list (tracks_db.py, line 24). -/
def artist_rem : List (List Char) := ["feat", "ft", "featuring"].map String.toList

/-- Title tag list (tracks_db.py, line 25). -/
def title_rem : List (List Char) :=
  ["demo", "demo version", "radio edit", "remastered", "session version", "live",
   "live acoustic", "acoustic", "industrial remix", "alternative version",
   "alternate version", "original mix", "bonus track", "re-recording",
   "alternate"].map String.toList

/-- Fixpoint of the while loop of normalize_str (tracks_db.py, lines 32-33)
that repeatedly replaces two consecutive spaces by one until none remain. -/
def squeezeSpaces : List Char → List Char
  | ' ' :: ' ' :: t => squeezeSpaces (' ' :: t)
  | c :: t => c :: squeezeSpaces t
  | [] => []
termination_by s => s.length

/-- Embedding of normalize_str (tracks_db.py, lines 28-34).  The chained
single-character replacements remove every dot and round or square bracket;
they are followed by the ampersand replacement and the space-collapsing
loop.  Python treats only the empty string as falsy here (the None case is
not modelled: rows carry total strings). -/
def normalize_str (s : List Char) : List Char :=
  if s = [] then s
  else
    squeezeSpaces (replaceSub " & ".toList " and ".toList
      (s.filter (fun c => !(c == '.' || c == '(' || c == ')' || c == '[' || c == ']'))))

/-- Embedding of normalize_album (tracks_db.py, lines 37-44); Char.toLower
models str.lower on the ASCII range. -/
def normalize_album (album : List Char) : List Char :=
  if album = [] then album
  else
    let s := album.map Char.toLower
    let s := album_rem.foldl
      (fun s r => replaceSub (' ' :: '[' :: (r ++ [']'])) []
        (replaceSub (' ' :: '(' :: (r ++ [')'])) [] s)) s
    normalize_str s

/-- Truncation loop of normalize_artist (tracks_db.py, lines 52-55): the
first listed tag found at an index greater than two truncates there. -/
def artistTruncate : List (List Char) → List Char → List Char
  | [], ar => ar
  | r :: rest, ar =>
    match subFind (' ' :: (r ++ [' '])) ar with
    | some pos => if pos > 2 then ar.take pos else artistTruncate rest ar
    | none => artistTruncate rest ar

/-- Embedding of normalize_artist (tracks_db.py, lines 47-56). -/
def normalize_artist (artist : List Char) : List Char :=
  if artist = [] then artist
  else artistTruncate artist_rem (normalize_str (artist.map Char.toLower))

/-- Embedding of normalize_title (tracks_db.py, lines 59-66). -/
def normalize_title (title : List Char) : List Char :=
  if title = [] then title
  else
    let s := title.map Char.toLower
    let s := title_rem.foldl
      (fun s r => replaceSub (' ' :: '[' :: (r ++ [']'])) []
        (replaceSub (' ' :: '(' :: (r ++ [')'])) [] s)) s
    normalize_str s

/-- Sentinel genre name (tracks_db.py, line 20). -/
def NO_GENRE : List Char := "<NoGenre>".toList

/-- Length of ESSENTIA_ATTRIBS (tracks_db.py, line 18); the bpm attribute is
the last of the twelve. -/
def NUM_ATTRIBS : Nat := 12

/-- Square of max_sim = sqrt(len(ESSENTIA_ATTRIBS) + 1) (tracks_db.py,
line 84). -/
def max_sim_sq : ℚ := (NUM_ATTRIBS : ℚ) + 1

/-- Union of the configured genre groups, already remapped to ids.  The
source stores the set config all_genres built while remapping the groups
from names to ids (tracks_db.py, lines 146-165); membership in that set
coincides with membership in the concatenation of the id groups. -/
def allGenres (groups : List (List Nat)) : List Nat := groups.flatMap id

/-- Group selected for a genre by the scan of tracks_db.py, lines 172-175:
the last configured group containing it (the empty set when none does). -/
def lastGroupContaining (groups : List (List Nat)) (g : Nat) : List Nat :=
  groups.foldl (fun acc grp => if g ∈ grp then grp else acc) []

/-- Embedding of the genre-difference table construction (tracks_db.py,
lines 167-189), as a function of the configured id groups and an ordered
pair of genre ids; the table rows are its values at the ids known at load
time. -/
def genre_difference (groups : List (List Nat)) (genre ogenre : Nat) : ℚ :=
  let in_all := genre ∈ allGenres groups
  let genre_group := lastGroupContaining groups genre
  if ogenre = genre then 1/10
  else if ogenre ∈ genre_group then 2/10
  else if ¬ in_all ∧ ogenre ∉ allGenres groups then 2/10
  else 4/10

/-- Row of the tracks table as read by the full scan of TracksDb.__init__
(tracks_db.py, lines 104-107): textual columns, duration, the ignore flag,
rowid, and the twelve acoustic attribute values in ESSENTIA_ATTRIBS order
(bpm last). -/
structure TrackRow where
  file : List Char
  title : List Char
  artist : List Char
  album : List Char
  albumartist : List Char
  genre : List Char
  duration : Int
  ignore : Int
  rowid : Nat
  attrs : List ℚ
deriving DecidableEq

/-- Value of the bpm column, the last acoustic attribute of a row. -/
def bpmOf (r : TrackRow) : ℚ := r.attrs.getD (NUM_ATTRIBS - 1) 0

/-- Bpm bounds of the whole table, from the query SELECT min(bpm), max(bpm)
FROM tracks (tracks_db.py, lines 99-102); none models the SQL NULL row of an
empty table, on which the Python subtraction raises. -/
def bpmBounds (rows : List TrackRow) : Option (ℚ × ℚ) :=
  match rows.map bpmOf with
  | [] => none
  | b :: bs => some (bs.foldl min b, bs.foldl max b)

/-- Genres of a row: the semicolon-separated genre column, or the sentinel
when the column is empty (tracks_db.py, lines 116-132). -/
def rowGenres (r : TrackRow) : List (List Char) :=
  if r.genre = [] then [NO_GENRE] else splitOnChar ';' r.genre

/-- Insertion of newly seen genre names in encounter order (tracks_db.py,
lines 120-127); the id of a name is its index in the accumulated list. -/
def addGenres (m : List (List Char)) (gs : List (List Char)) : List (List Char) :=
  gs.foldl (fun m g => if g ∈ m then m else m ++ [g]) m

/-- Genre-name table after the load scan: the sentinel at id zero
(tracks_db.py, line 110), then every genre name of a non-ignored row in
encounter order (lines 111-127). -/
def genreMapOf (rows : List TrackRow) : List (List Char) :=
  rows.foldl
    (fun m r =>
      if r.ignore = 1 then m
      else if r.genre = [] then m
      else addGenres m (splitOnChar ';' r.genre))
    [NO_GENRE]

/-- Id of a genre name: its index in the genre-name table.  At load time
every genre of a kept row is present in the table by construction. -/
def genreId (m : List (List Char)) (g : List Char) : Nat :=
  m.findIdx (· == g)

/-- Attribute vector of one loaded track (tracks_db.py, lines 134-139): the
acoustic attributes as stored, except bpm which is min-max scaled.  The
Python division raises ZeroDivisionError when the observed bpm range is
zero; that failure is modelled by none. -/
def normalizeAttrs (min_bpm bpm_range : ℚ) (attrs : List ℚ) : Option (List ℚ) :=
  if bpm_range = 0 then none
  else some (attrs.enum.map
    (fun p => if p.1 = NUM_ATTRIBS - 1 then (p.2 - min_bpm) / bpm_range else p.2))

/-- Track record built by the load scan (tracks_db.py, lines 115-132), with
the feature vector destined for the parallel attribute list kept alongside. -/
structure DbTrack where
  file : List Char
  title : List Char
  artist : List Char
  album : List Char
  albumartist : List Char
  duration : Int
  rowid : Nat
  genres : List (List Char)
  igenres : List Nat
  feats : List ℚ
deriving DecidableEq

/-- Load of one non-ignored row (tracks_db.py, lines 115-143). -/
def loadTrack (m : List (List Char)) (min_bpm bpm_range : ℚ) (r : TrackRow) : Option DbTrack :=
  (normalizeAttrs min_bpm bpm_range r.attrs).map (fun fs =>
    { file := r.file
      title := normalize_title r.title
      artist := normalize_artist r.artist
      album := normalize_album r.album
      albumartist := normalize_artist r.albumartist
      duration := r.duration
      rowid := r.rowid
      genres := rowGenres r
      igenres := if r.genre = [] then [0] else (splitOnChar ';' r.genre).map (genreId m)
      feats := fs })

/-- In-memory state after the load scan: the track list and the parallel
attribute array whose thirteenth column holds the placeholder 5
(tracks_db.py, lines 140-144). -/
structure TracksDb where
  tracks : List DbTrack
  attribs : List (List ℚ)
deriving DecidableEq

/-- Sequencing of fallible loads: some list when every element loads, none
as soon as one fails (the exception aborting the Python loop). -/
def mapMO {α β : Type} (f : α → Option β) : List α → Option (List β)
  | [] => some []
  | a :: t =>
    match f a, mapMO f t with
    | some b, some bs => some (b :: bs)
    | _, _ => none

/-- Embedding of the load scan of TracksDb.__init__ (tracks_db.py,
lines 97-144): bpm bounds from the whole table, rows with the ignore flag
set to one skipped, every kept row normalized; none models a Python
exception during the load. -/
def loadDb (rows : List TrackRow) : Option TracksDb :=
  match bpmBounds rows with
  | none => none
  | some bounds =>
    (mapMO (loadTrack (genreMapOf rows) bounds.1 (bounds.2 - bounds.1))
        (rows.filter (fun r => r.ignore != 1))).map
      (fun ts => { tracks := ts, attribs := ts.map (fun t => t.feats ++ [5]) })

/-- Cached state of the last similarity call (tracks_db.py, line 258): the
seed's primary genre id, the match-all flag, and the tree, modelled by the
feature matrix it was built over. -/
structure LastCall where
  igenre : Nat
  match_all_genres : Bool
  tree : List (List ℚ)
deriving DecidableEq

/-- Rebuild condition of tracks_db.py, lines 245-247. -/
def needRebuild (last : Option LastCall) (match_all_genres : Bool) (seed_igenre : Nat) : Bool :=
  match last with
  | none => true
  | some lc => (match_all_genres && !lc.match_all_genres)
      || (!match_all_genres && (lc.igenre != seed_igenre))

/-- Rewrite of the thirteenth attribute column (tracks_db.py, lines 250-253):
zero under match-all, otherwise the genre difference between the seed's
primary genre and the track's primary genre. -/
def rebuildAttribs (groups : List (List Nat)) (tracks : List DbTrack)
    (attribs : List (List ℚ)) (match_all_genres : Bool) (seed_igenre : Nat) : List (List ℚ) :=
  (attribs.zip tracks).map (fun p =>
    p.1.set NUM_ATTRIBS
      (if match_all_genres then 0
       else genre_difference groups seed_igenre (p.2.igenres.headD 0)))

/-- Squared Euclidean distance between two feature vectors. -/
def sqDist (v w : List ℚ) : ℚ :=
  (List.zipWith (fun a b => (a - b) ^ 2) v w).sum

/-- Neighbour list of the k-d tree query (tracks_db.py, line 262): every row
index paired with its squared distance to the query vector, in ascending
distance.  cKDTree.query returns the nearest rows by Euclidean distance in
ascending order, and ordering by squared distance is the same ordering.  The
sort here is stable, breaking ties by row index; scipy leaves the tie order
unspecified. -/
def rankedNeighbours (m : List (List ℚ)) (q : List ℚ) : List (Nat × ℚ) :=
  List.insertionSort (fun a b => a.2 ≤ b.2) ((m.map (sqDist q)).enum)

/-- Seed entry as produced by TracksDb.get for a seed (tracks_db.py,
lines 219-228): genre ids and a thirteen-entry attribute vector whose last
entry is the placeholder 0 (line 227). -/
structure SeedEntry where
  igenres : List Nat
  attribs : List ℚ
deriving DecidableEq

/-- One returned entry: the track-list index and the square of the reported
similarity; the reported similarity itself is distance / max_sim
(tracks_db.py, line 270), so its square is the squared distance divided by
max_sim_sq. -/
structure SimEntry where
  idx : Nat
  simSq : ℚ
deriving DecidableEq

/-- Cache state after the rebuild step (tracks_db.py, lines 244-259): a
fresh tree over the rewritten column on a rebuild, the cached tree reused as
is otherwise.  The getD default is unreachable because needRebuild is true
whenever the cache is empty. -/
def nextLastCall (db : TracksDb) (groups : List (List Nat)) (last : Option LastCall)
    (seed : SeedEntry) (match_all_genres : Bool) : LastCall :=
  let seedG := seed.igenres.headD 0
  if needRebuild last match_all_genres seedG then
    { igenre := seedG, match_all_genres := match_all_genres,
      tree := rebuildAttribs groups db.tracks db.attribs match_all_genres seedG }
  else last.getD { igenre := seedG, match_all_genres := match_all_genres, tree := [] }

/-- Result assembly of the query (tracks_db.py, lines 261-271): the loop
runs from index one up to min(k, n) exclusive over the neighbour list,
dropping the first returned neighbour, where k is the requested neighbour
count and n the number of tracks; each entry carries the squared similarity
(squared distance over max_sim_sq). -/
def similarEntries (tree : List (List ℚ)) (q : List ℚ) (k n : Nat) : List SimEntry :=
  (((rankedNeighbours tree q).take (min k n)).drop 1).map
    (fun p => { idx := p.1, simSq := p.2 / max_sim_sq })

/-- Embedding of TracksDb.get_similar_tracks (tracks_db.py, lines 236-274).
Returns the entry list and the updated cache.  The query asks for
k = count + num_skip neighbours (line 262). -/
def get_similar_tracks (db : TracksDb) (groups : List (List Nat)) (last : Option LastCall)
    (seed : SeedEntry) (match_all_genres : Bool) (num_skip : Nat) (count : Int) :
    List SimEntry × Option LastCall :=
  let cnt : Nat := if count ≤ 0 then db.tracks.length else count.toNat
  let last' := nextLastCall db groups last seed match_all_genres
  (similarEntries last'.tree seed.attribs (cnt + num_skip) db.tracks.length, some last')

/-- Default of the count parameter (app.py, line 21). -/
def DEFAULT_TRACKS_TO_RETURN : Nat := 5

/-- Minimum of the count parameter (app.py, line 22). -/
def MIN_TRACKS_TO_RETURN : Nat := 5

/-- Maximum of the count parameter (app.py, line 23). -/
def MAX_TRACKS_TO_RETURN : Nat := 50

/-- History window of the previous-artist filter (app.py, line 24). -/
def NUM_PREV_TRACKS_FILTER_ARTIST : Nat := 15

/-- History window of the previous-album filter (app.py, line 25). -/
def NUM_PREV_TRACKS_FILTER_ALBUM : Nat := 25

/-- Shuffle factor (app.py, line 26). -/
def SHUFFLE_FACTOR : Nat := 4

/-- Maximum similarity gap between the first candidate of a seed and the
rest (app.py, line 27). -/
def MAX_SIM_RANGE : ℚ := 1/2

/-- Request parameters of a GET request: each key carries the list of its
supplied values (flask to_dict with flat set to false). -/
abbrev Params := List (String × List String)

/-- Embedding of get_value (app.py, lines 45-48) in its GET form: the first
supplied value of the key, or the default.  A key present with an empty
value list cannot arise from a query string; the default in that case
stands in for the absent-key path. -/
def get_value (params : Params) (key : String) (defVal : String) : String :=
  match params.lookup key with
  | some (v :: _) => v
  | some [] => defVal
  | none => defVal

/-- Clamp of the count parameter (app.py, lines 152-156). -/
def clampCount (c : Int) : Int :=
  if c < (MIN_TRACKS_TO_RETURN : Int) then (MIN_TRACKS_TO_RETURN : Int)
  else if c > (MAX_TRACKS_TO_RETURN : Int) then (MAX_TRACKS_TO_RETURN : Int)
  else c

/-- Per-request acceptance cap (app.py, line 243): count times SHUFFLE_FACTOR
when shuffling, count alone otherwise; the int conversion of the source is
exact on whole numbers. -/
def similarity_count (shuffle : Bool) (count : Nat) : Nat :=
  if shuffle then count * SHUFFLE_FACTOR else count

/-- Entry of the matched-artists dictionary (app.py, line 291): the
similarity of the accepted track, the accumulated alternates pool, and the
accepted track's position in the similar-tracks list. -/
structure MatchedEntry (α : Type) where
  similarity : ℚ
  tracks : List α
  pos : Nat
deriving DecidableEq

/-- Per-request selection state (app.py, lines 171-179 and 245). -/
structure ScanState (α : Type) where
  similar_tracks : List α
  filtered_by_seeds_tracks : List α
  filtered_by_current_tracks : List α
  filtered_by_previous_tracks : List α
  current_titles : List (List Char)
  matched_artists : List (List Char × MatchedEntry α)
deriving DecidableEq

/-- Empty selection state at the start of a request. -/
def ScanState.empty (α : Type) : ScanState α := ⟨[], [], [], [], [], []⟩

/-- Context of the per-seed candidate scan (app.py, lines 246-296): the
request-level flags and the predicates supplied by the filters module.  The
filters module is not part of src, so its predicates are kept abstract;
every classification property proved below holds for every instantiation.
The field same_as_previous models filters.same_artist_or_album applied to
the previous tracks with the album flag and the history window as arguments
(app.py, lines 278 and 281); same_as_seeds and same_as_current model the
same function applied to the seed entries and to the accepted list. -/
structure SeedCtx (α : Type) where
  similarity : α → ℚ
  artist : α → List Char
  title : α → Option (List Char)
  match_genre : Bool
  match_all_genres : Bool
  exclude_christmas : Bool
  do_exclude_artists : Bool
  do_exclude_albums : Bool
  genre_matches : α → Bool
  is_christmas : α → Bool
  match_artist : α → Bool
  match_album : α → Bool
  same_as_seeds : α → Bool
  same_as_current : List α → α → Bool
  same_as_previous : Bool → Nat → α → Bool
  match_title : List (List Char) → α → Bool

/-- Assignment in a Python dictionary modelled as an association list: an
existing key keeps its position and has its value replaced, a new key is
appended. -/
def dictSet {α : Type} : List (List Char × MatchedEntry α) → List Char → MatchedEntry α →
    List (List Char × MatchedEntry α)
  | [], k, v => [(k, v)]
  | (k', v') :: t, k, v => if k' = k then (k, v) :: t else (k', v') :: dictSet t k v

/-- Outcome of the candidate classification chain of app.py, lines 261-294:
the four discard branches, the five filtered buckets, and acceptance. -/
inductive Bucket : Type
  | discard : Bucket
  | bySeeds : Bucket
  | byCurrent : Bucket
  | byPrevArtist : Bucket
  | byPrevAlbum : Bucket
  | byTitle : Bucket
  | usable : Bucket
deriving DecidableEq

/-- Branch selection of the elif chain of app.py, lines 261-294, in source
order; the four discard tests (genre, christmas, excluded artist, excluded
album) all leave the state untouched and are collapsed into one outcome. -/
def chooseBucket {α : Type} (ctx : SeedCtx α) (st : ScanState α) (track : α) : Bucket :=
  if ctx.match_genre && !ctx.match_all_genres && !ctx.genre_matches track then .discard
  else if ctx.exclude_christmas && ctx.is_christmas track then .discard
  else if ctx.do_exclude_artists && ctx.match_artist track then .discard
  else if ctx.do_exclude_albums && ctx.match_album track then .discard
  else if ctx.same_as_seeds track then .bySeeds
  else if ctx.same_as_current st.similar_tracks track then .byCurrent
  else if ctx.same_as_previous false NUM_PREV_TRACKS_FILTER_ARTIST track then .byPrevArtist
  else if ctx.same_as_previous true NUM_PREV_TRACKS_FILTER_ALBUM track then .byPrevAlbum
  else if ctx.match_title st.current_titles track then .byTitle
  else .usable

/-- Classification of one candidate (app.py, lines 261-294): the updated
selection state, paired with true exactly when the candidate is accepted as
usable.  The filtered-by-current branch also feeds the artist alternates
pool under the 0.25 similarity rule of line 276; the usable branch appends
the track, records it in the matched-artists dictionary with its position,
and extends the title list. -/
def classifyTrack {α : Type} (ctx : SeedCtx α) (st : ScanState α) (track : α) :
    ScanState α × Bool :=
  match chooseBucket ctx st track with
  | .discard => (st, false)
  | .bySeeds =>
    ({ st with filtered_by_seeds_tracks := st.filtered_by_seeds_tracks ++ [track] }, false)
  | .byCurrent =>
    let matched :=
      match st.matched_artists.lookup (ctx.artist track) with
      | some e =>
        if ctx.similarity track - e.similarity ≤ 1/4 then
          dictSet st.matched_artists (ctx.artist track)
            { e with tracks := e.tracks ++ [track] }
        else st.matched_artists
      | none => st.matched_artists
    ({ st with
        filtered_by_current_tracks := st.filtered_by_current_tracks ++ [track],
        matched_artists := matched }, false)
  | .byPrevArtist =>
    ({ st with filtered_by_previous_tracks := st.filtered_by_previous_tracks ++ [track] },
      false)
  | .byPrevAlbum =>
    ({ st with filtered_by_previous_tracks := st.filtered_by_previous_tracks ++ [track] },
      false)
  | .byTitle =>
    ({ st with filtered_by_previous_tracks := st.filtered_by_previous_tracks ++ [track] },
      false)
  | .usable =>
    ({ st with
        similar_tracks := st.similar_tracks ++ [track],
        matched_artists := dictSet st.matched_artists (ctx.artist track)
          { similarity := ctx.similarity track, tracks := [track],
            pos := st.similar_tracks.length },
        current_titles :=
          match ctx.title track with
          | some t => st.current_titles ++ [t]
          | none => st.current_titles }, true)

/-- Per-seed candidate scan (app.py, lines 247-296).  The state, the
first-candidate similarity and the number of candidates accepted for this
seed thread through the recursion.  The scan stops early (the Python break)
when a candidate's similarity exceeds the first candidate's similarity by
more than MAX_SIM_RANGE (lines 256-259) and when the acceptance cap is
reached just after an acceptance (lines 294-296); otherwise the candidate
is classified by classifyTrack and the scan continues. -/
def scanSeed {α : Type} (ctx : SeedCtx α) (simCount : Nat) :
    List α → ScanState α → Option ℚ → Nat → ScanState α
  | [], st, _, _ => st
  | track :: rest, st, first_sim, accepted =>
    let f := first_sim.getD (ctx.similarity track)
    if first_sim.isSome ∧ ctx.similarity track - f > MAX_SIM_RANGE then st
    else
      let r := classifyTrack ctx st track
      if r.2 then
        if accepted + 1 ≥ simCount then r.1
        else scanSeed ctx simCount rest r.1 (some f) (accepted + 1)
      else scanSeed ctx simCount rest r.1 (some f) accepted

/-- Seed loop of similar_api (app.py, lines 245-296): every seed contributes
its scan context (the match-all flag is computed per seed, line 249) and its
neighbour list from the engine (line 252); accepted_tracks and first_sim
restart at every seed while the selection state accumulates. -/
def runSeeds {α : Type} (simCount : Nat) (seedsData : List (SeedCtx α × List α))
    (st : ScanState α) : ScanState α :=
  seedsData.foldl (fun st p => scanSeed p.1 simCount p.2 st none 0) st

/-- Choice of random.choice, modelled by an arbitrary chooser whose value is
reduced modulo the pool size. -/
def pickAt {α : Type} (choose : List α → Nat) (l : List α) (h : 0 < l.length) : α :=
  l.get ⟨choose l % l.length, Nat.mod_lt _ h⟩

/-- Alternates replacement (app.py, lines 299-302): for every
matched-artists entry with more than one pooled track, the accepted track at
the recorded position is replaced by a pool element, in dictionary iteration
order. -/
def applyMatchedArtists {α : Type} (choose : List α → Nat)
    (matched : List (List Char × MatchedEntry α)) (similar : List α) : List α :=
  matched.foldl
    (fun sim p =>
      if h : 1 < p.2.tracks.length then
        sim.set p.2.pos (pickAt choose p.2.tracks (by omega))
      else sim)
    similar

/-- Stable ascending sort by similarity, mirroring Python sorted with the
similarity key (app.py, lines 308, 312, 316 and 320); insertion sort is
stable like Python's sort. -/
def sortBySim {α : Type} (sim : α → ℚ) (l : List α) : List α :=
  List.insertionSort (fun a b => sim a ≤ sim b) l

/-- One backfill step (app.py, lines 304-317): when fewer than two tracks
are accepted and the donor list is non-empty, the donor list is sorted by
similarity and its best entries are appended up to a total of two. -/
def backfillStep {α : Type} (sim : α → ℚ) (l pool : List α) : List α :=
  if l.length < 2 ∧ 0 < pool.length then l ++ (sortBySim sim pool).take (2 - l.length) else l

/-- Tail of similar_api after the seed loop (app.py, lines 298-327):
alternates replacement, backfill from the filtered lists, ascending sort by
similarity, truncation to similarity_count, and, when shuffling, a random
permutation (modelled by the perm parameter) followed by truncation to
count. -/
def postProcess {α : Type} (sim : α → ℚ) (choose : List α → Nat) (perm : List α → List α)
    (shuffle : Bool) (count : Nat) (st : ScanState α) : List α :=
  let similar := applyMatchedArtists choose st.matched_artists st.similar_tracks
  let similar := backfillStep sim similar st.filtered_by_previous_tracks
  let similar := backfillStep sim similar st.filtered_by_current_tracks
  let similar := backfillStep sim similar st.filtered_by_seeds_tracks
  let similar := (sortBySim sim similar).take (similarity_count shuffle count)
  if shuffle then (perm similar).take count else similar

/-- Full selection pipeline of similar_api over given per-seed candidate
lists (app.py, lines 243-327). -/
def similar_pipeline {α : Type} (sim : α → ℚ) (choose : List α → Nat)
    (perm : List α → List α) (shuffle : Bool) (count : Nat)
    (seedsData : List (SeedCtx α × List α)) : List α :=
  postProcess sim choose perm shuffle count
    (runSeeds (similarity_count shuffle count) seedsData (ScanState.empty α))

/-- Duration window test.  Modelled from the spec: SKIP a candidate outside
the window from min_duration to max_duration, where 0 means no bound on
that side. -/
def durationOk (min_duration max_duration d : Int) : Bool :=
  (min_duration ≤ 0 || min_duration ≤ d) && (max_duration ≤ 0 || d ≤ max_duration)

/-- Modelled from the spec: the get_similar_tracks revision called by
similar_api (app.py, line 252) with the duration bounds and the skip rows as
arguments, which is absent from src/lib/tracks_db.py (the revision in src
has the signature of its line 236 without these arguments).  Per the spec it
skips every candidate outside the duration window and every row listed in
skip_rows; the survivors are the neighbour candidates handed to the
selection loop. -/
def respModel (db : TracksDb) (min_duration max_duration : Int) (skip_rows : List Nat) :
    List DbTrack :=
  db.tracks.filter (fun t =>
    durationOk min_duration max_duration t.duration && !(skip_rows.contains t.rowid))

/-- Decimal value of a digit string. -/
def digitsToNat (s : List Char) : Nat :=
  s.foldl (fun n c => n * 10 + (c.toNat - 48)) 0

/-- Modelled from the spec: integer parse of a decimal parameter string
(Python int over an optional minus sign and digits), with a default for the
strings the spec does not constrain. -/
def parseIntD (s : List Char) (dflt : Int) : Int :=
  match s with
  | '-' :: t => if t ≠ [] ∧ t.all Char.isDigit then -(digitsToNat t : Int) else dflt
  | _ => if s ≠ [] ∧ s.all Char.isDigit then (digitsToNat s : Int) else dflt

/-- Modelled from the spec: the norepart request parameter, default 15,
clamped to the range 0 to 200.  The revision of similar_api in src does not
read this parameter. -/
def spec_norep_artist (params : Params) : Int :=
  let v := parseIntD (get_value params "norepart" "15").toList 15
  if v < 0 then 0 else if v > 200 then 200 else v

/-- Modelled from the spec: the norepalb request parameter, default 25,
clamped to the range 0 to 200.  The revision of similar_api in src does not
read this parameter. -/
def spec_norep_album (params : Params) : Int :=
  let v := parseIntD (get_value params "norepalb" "25").toList 25
  if v < 0 then 0 else if v > 200 then 200 else v

lemma mem_allGenres {groups : List (List Nat)} {g : Nat} :
    g ∈ allGenres groups ↔ ∃ G ∈ groups, g ∈ G := by
  simp [allGenres]

lemma lastGroup_fold_const {g : Nat} (acc : List Nat) (groups : List (List Nat))
    (h : ∀ G' ∈ groups, g ∈ G' → G' = acc) :
    groups.foldl (fun acc grp => if g ∈ grp then grp else acc) acc = acc := by
  induction groups with
  | nil => rfl
  | cons grp rest ih =>
    simp only [List.foldl_cons]
    by_cases hg : g ∈ grp
    · rw [if_pos hg, h grp (List.mem_cons_self _ _) hg]
      exact ih (fun G' hG' hgG' => h G' (List.mem_cons_of_mem _ hG') hgG')
    · rw [if_neg hg]
      exact ih (fun G' hG' hgG' => h G' (List.mem_cons_of_mem _ hG') hgG')

lemma lastGroup_fold_eq {g : Nat} {G : List Nat} (groups : List (List Nat))
    (acc : List Nat) (hG : G ∈ groups) (hg : g ∈ G)
    (huniq : ∀ G' ∈ groups, g ∈ G' → G' = G) :
    groups.foldl (fun acc grp => if g ∈ grp then grp else acc) acc = G := by
  induction groups generalizing acc with
  | nil => exact absurd hG (List.not_mem_nil _)
  | cons grp rest ih =>
    simp only [List.foldl_cons]
    by_cases hmem : g ∈ grp
    · rw [if_pos hmem, huniq grp (List.mem_cons_self _ _) hmem]
      exact lastGroup_fold_const G rest
        (fun G' hG' hgG' => huniq G' (List.mem_cons_of_mem _ hG') hgG')
    · rw [if_neg hmem]
      have hGrest : G ∈ rest := by
        rcases List.mem_cons.mp hG with rfl | h
        · exact absurd hg hmem
        · exact h
      exact ih acc hGrest (fun G' hG' hgG' => huniq G' (List.mem_cons_of_mem _ hG') hgG')

lemma lastGroupContaining_of_mem {groups : List (List Nat)} {g : Nat} {G : List Nat}
    (hG : G ∈ groups) (hg : g ∈ G) (huniq : ∀ G' ∈ groups, g ∈ G' → G' = G) :
    lastGroupContaining groups g = G :=
  lastGroup_fold_eq groups [] hG hg huniq

lemma lastGroupContaining_of_none {groups : List (List Nat)} {g : Nat}
    (h : ∀ G ∈ groups, g ∉ G) :
    lastGroupContaining groups g = [] :=
  lastGroup_fold_const [] groups (fun G' hG' hgG' => absurd hgG' (h G' hG'))

/-- C5: for every ordered pair (g, h) of integer genre ids, under the
data-model invariant that a genre belongs to at most one configured group,
the genre-difference table built after loading gives 0.1 when g = h, 0.2
when g and h belong to the same configured group, 0.2 when neither g nor h
appears in any configured group, and 0.4 in every other case. -/
theorem genre_difference_cases (groups : List (List Nat)) (g h : Nat)
    (huniq : ∀ x : Nat, ∀ G ∈ groups, ∀ G' ∈ groups, x ∈ G → x ∈ G' → G = G') :
    (h = g → genre_difference groups g h = 1/10) ∧
    (h ≠ g → (∃ G ∈ groups, g ∈ G ∧ h ∈ G) → genre_difference groups g h = 2/10) ∧
    (h ≠ g → (∀ G ∈ groups, g ∉ G) → (∀ G ∈ groups, h ∉ G) →
      genre_difference groups g h = 2/10) ∧
    (h ≠ g → ¬ (∃ G ∈ groups, g ∈ G ∧ h ∈ G) →
      ¬ ((∀ G ∈ groups, g ∉ G) ∧ (∀ G ∈ groups, h ∉ G)) →
      genre_difference groups g h = 4/10) := by
  refine ⟨fun hEq => ?_, fun hne hsame => ?_, fun hne hgu hhu => ?_, fun hne hnsame hngu => ?_⟩
  · simp [genre_difference, hEq]
  · rcases hsame with ⟨G, hG, hgG, hhG⟩
    have hlast : lastGroupContaining groups g = G :=
      lastGroupContaining_of_mem hG hgG (fun G' hG' hg' => huniq g G' hG' G hG hg' hgG)
    simp [genre_difference, hne, hlast, hhG]
  · have hlast : lastGroupContaining groups g = [] := lastGroupContaining_of_none hgu
    have hgall : g ∉ allGenres groups := by
      rw [mem_allGenres]
      rintro ⟨G, hG, hgG⟩
      exact hgu G hG hgG
    have hhall : h ∉ allGenres groups := by
      rw [mem_allGenres]
      rintro ⟨G, hG, hhG⟩
      exact hhu G hG hhG
    simp [genre_difference, hne, hlast, hgall, hhall]
  · by_cases hgrp : ∃ G ∈ groups, g ∈ G
    · rcases hgrp with ⟨G, hG, hgG⟩
      have hlast : lastGroupContaining groups g = G :=
        lastGroupContaining_of_mem hG hgG (fun G' hG' hg' => huniq g G' hG' G hG hg' hgG)
      have hhG : h ∉ G := fun hhG => hnsame ⟨G, hG, hgG, hhG⟩
      have hgall : g ∈ allGenres groups := mem_allGenres.mpr ⟨G, hG, hgG⟩
      simp [genre_difference, hne, hlast, hhG, hgall]
    · have hgu : ∀ G ∈ groups, g ∉ G := by
        intro G hG hgG
        exact hgrp ⟨G, hG, hgG⟩
      have hlast : lastGroupContaining groups g = [] := lastGroupContaining_of_none hgu
      have hh : ¬ (∀ G ∈ groups, h ∉ G) := fun hhu => hngu ⟨hgu, hhu⟩
      have hhall : h ∈ allGenres groups := by
        rw [mem_allGenres]
        by_contra hc
        exact hh (fun G hG hhG => hc ⟨G, hG, hhG⟩)
      have hgall : g ∉ allGenres groups := by
        rw [mem_allGenres]
        rintro ⟨G, hG, hgG⟩
        exact hgu G hG hgG
      simp [genre_difference, hne, hlast, hgall, hhall]

/-- Witness for C5: a concrete configuration with groups 1-2 and 3, checked
on a diagonal pair, a same-group pair, an ungrouped pair and a cross-group
pair through the theorem itself. -/
theorem genre_difference_cases_witness :
    genre_difference [[1, 2], [3]] 1 1 = 1/10 ∧
    genre_difference [[1, 2], [3]] 1 2 = 2/10 ∧
    genre_difference [[1, 2], [3]] 5 6 = 2/10 ∧
    genre_difference [[1, 2], [3]] 1 3 = 4/10 := by
  have huniq : ∀ x : Nat, ∀ G ∈ [[1, 2], [3]], ∀ G' ∈ [[1, 2], [3]],
      x ∈ G → x ∈ G' → G = G' := by
    intro x G hG G' hG' hx hx'
    simp only [List.mem_cons, List.not_mem_nil, or_false] at hG hG'
    rcases hG with rfl | rfl <;> rcases hG' with rfl | rfl <;> simp_all
  refine ⟨(genre_difference_cases [[1, 2], [3]] 1 1 huniq).1 rfl,
    (genre_difference_cases [[1, 2], [3]] 1 2 huniq).2.1 (by decide)
      ⟨[1, 2], by simp, by simp, by simp⟩,
    (genre_difference_cases [[1, 2], [3]] 5 6 huniq).2.2.1 (by decide)
      (by decide) (by decide),
    (genre_difference_cases [[1, 2], [3]] 1 3 huniq).2.2.2 (by decide) ?_ ?_⟩
  · rintro ⟨G, hG, h1, h3⟩
    simp only [List.mem_cons, List.not_mem_nil, or_false] at hG
    rcases hG with rfl | rfl
    · simp at h3
    · simp at h1
  · rintro ⟨h1, _⟩
    exact h1 [1, 2] (by simp) (by simp)

/-- Twelve-entry all-zero acoustic attribute vector used by the concrete
test catalogs. -/
def feats0 : List ℚ := List.replicate NUM_ATTRIBS 0

/-- Concrete loaded track with the given primary genre id. -/
def trackG (g : Nat) : DbTrack :=
  { file := [], title := [], artist := [], album := [], albumartist := [],
    duration := 100, rowid := g, genres := [], igenres := [g], feats := feats0 }

/-- Concrete two-track database with primary genres 3 and 4. -/
def dbA : TracksDb :=
  { tracks := [trackG 3, trackG 4], attribs := [feats0 ++ [5], feats0 ++ [5]] }

/-- Cache left behind by a query with match_all_genres on and seed primary
genre 3: its tree column thirteen is all zeros. -/
def lastA : LastCall :=
  { igenre := 3, match_all_genres := true,
    tree := rebuildAttribs [] dbA.tracks dbA.attribs true 3 }

/-- Concrete seed entry with primary genre 3. -/
def seedA : SeedEntry := { igenres := [3], attribs := feats0 ++ [0] }

unseal Rat.add Rat.sub Rat.mul Rat.inv in
/-- C2 (code-bug exhibit): after a query with match_all_genres on whose seed
has primary genre 3, a query with match_all_genres off and the same primary
genre finds needRebuild false although the cached key differs from the query
key, so get_similar_tracks reuses the cached tree unchanged, whose genre
column (all zeros) differs from the column the required rebuild would
produce. -/
theorem stale_tree_reused :
    needRebuild (some lastA) false 3 = false ∧
    (lastA.match_all_genres, lastA.igenre) ≠ (false, 3) ∧
    (get_similar_tracks dbA [] (some lastA) seedA false 0 5).2 = some lastA ∧
    rebuildAttribs [] dbA.tracks dbA.attribs false 3 ≠ lastA.tree := by
  decide

/-- Concrete catalog row with bpm 120 and the ignore flag clear. -/
def rowBpm (n : Nat) : TrackRow :=
  { file := [], title := [], artist := [], album := [], albumartist := [], genre := [],
    duration := 100, ignore := 0, rowid := n, attrs := List.replicate 11 0 ++ [120] }

unseal Rat.add Rat.sub Rat.mul Rat.inv in
/-- C3 (code-bug exhibit): a catalog whose tracks all carry bpm 120 has
observed bpm range zero, and the load fails on the bpm normalisation
division (Python ZeroDivisionError, modelled by none) instead of treating
the range as one. -/
theorem equal_bpm_load_fails : loadDb [rowBpm 0, rowBpm 1] = none := by
  decide

lemma classifyTrack_prev_congr {α : Type} (ctx : SeedCtx α) (p : Bool → Nat → α → Bool)
    (h15 : ∀ t, p false NUM_PREV_TRACKS_FILTER_ARTIST t
      = ctx.same_as_previous false NUM_PREV_TRACKS_FILTER_ARTIST t)
    (h25 : ∀ t, p true NUM_PREV_TRACKS_FILTER_ALBUM t
      = ctx.same_as_previous true NUM_PREV_TRACKS_FILTER_ALBUM t)
    (st : ScanState α) (t : α) :
    classifyTrack { ctx with same_as_previous := p } st t = classifyTrack ctx st t := by
  have hcb : chooseBucket { ctx with same_as_previous := p } st t = chooseBucket ctx st t := by
    dsimp only [chooseBucket]
    rw [h15, h25]
  dsimp only [classifyTrack]
  rw [hcb]

lemma scanSeed_prev_congr {α : Type} (ctx : SeedCtx α) (p : Bool → Nat → α → Bool)
    (h15 : ∀ t, p false NUM_PREV_TRACKS_FILTER_ARTIST t
      = ctx.same_as_previous false NUM_PREV_TRACKS_FILTER_ARTIST t)
    (h25 : ∀ t, p true NUM_PREV_TRACKS_FILTER_ALBUM t
      = ctx.same_as_previous true NUM_PREV_TRACKS_FILTER_ALBUM t)
    (simCount : Nat) :
    ∀ (cands : List α) (st : ScanState α) (fs : Option ℚ) (acc : Nat),
      scanSeed { ctx with same_as_previous := p } simCount cands st fs acc
        = scanSeed ctx simCount cands st fs acc := by
  intro cands
  induction cands with
  | nil => intro st fs acc; rfl
  | cons t rest ih =>
    intro st fs acc
    simp only [scanSeed, classifyTrack_prev_congr ctx p h15 h25, ih]

/-- C8 (counterexample): the claim predicts that supplying norepart 0 and
norepalb 0 shrinks the history windows to zero after clamping, but the
windows the code passes to the previous-track filter are the module
constants 15 and 25. -/
theorem norep_param_ignored :
    (NUM_PREV_TRACKS_FILTER_ARTIST : Int) ≠ spec_norep_artist [("norepart", ["0"])] ∧
    (NUM_PREV_TRACKS_FILTER_ALBUM : Int) ≠ spec_norep_album [("norepalb", ["0"])] := by
  decide

/-- C8 (amended): the artist-repetition window used for the previous-artist
filter is the fixed constant 15 and the album-repetition window the fixed
constant 25, independent of any request parameter: the per-seed scan
consults the previous-track filter only at the windows 15 (artist form) and
25 (album form), so two filter functions that agree there yield identical
scans on every input. -/
theorem norep_windows_fixed :
    NUM_PREV_TRACKS_FILTER_ARTIST = 15 ∧ NUM_PREV_TRACKS_FILTER_ALBUM = 25 ∧
    ∀ {α : Type} (ctx : SeedCtx α) (p : Bool → Nat → α → Bool),
      (∀ t, p false NUM_PREV_TRACKS_FILTER_ARTIST t
        = ctx.same_as_previous false NUM_PREV_TRACKS_FILTER_ARTIST t) →
      (∀ t, p true NUM_PREV_TRACKS_FILTER_ALBUM t
        = ctx.same_as_previous true NUM_PREV_TRACKS_FILTER_ALBUM t) →
      ∀ (simCount : Nat) (cands : List α) (st : ScanState α) (fs : Option ℚ) (acc : Nat),
        scanSeed { ctx with same_as_previous := p } simCount cands st fs acc
          = scanSeed ctx simCount cands st fs acc :=
  ⟨rfl, rfl, fun ctx p h15 h25 simCount cands st fs acc =>
    scanSeed_prev_congr ctx p h15 h25 simCount cands st fs acc⟩

/-- Scan context whose predicates all answer no, over natural-number
candidate tokens with constant similarity zero. -/
def ctx0 : SeedCtx Nat :=
  { similarity := fun _ => 0, artist := fun _ => [], title := fun _ => none,
    match_genre := false, match_all_genres := false, exclude_christmas := false,
    do_exclude_artists := false, do_exclude_albums := false,
    genre_matches := fun _ => false, is_christmas := fun _ => false,
    match_artist := fun _ => false, match_album := fun _ => false,
    same_as_seeds := fun _ => false, same_as_current := fun _ _ => false,
    same_as_previous := fun _ _ _ => false, match_title := fun _ _ => false }

/-- Witness for the amended C8: a filter that agrees with the context's
filter at the windows 15 and 25 (answering no there) but differs elsewhere
produces the same scan on a concrete input. -/
theorem norep_windows_fixed_witness :
    scanSeed { ctx0 with same_as_previous := fun _ n _ => n == 7 } 5 [0, 1]
        (ScanState.empty Nat) none 0
      = scanSeed ctx0 5 [0, 1] (ScanState.empty Nat) none 0 :=
  norep_windows_fixed.2.2 ctx0 (fun _ n _ => n == 7)
    (fun _ => rfl) (fun _ => rfl) 5 [0, 1] (ScanState.empty Nat) none 0

lemma classifyTrack_similar_spec {α : Type} (ctx : SeedCtx α) (st : ScanState α) (t : α) :
    ((classifyTrack ctx st t).1).similar_tracks
      = if (classifyTrack ctx st t).2 = true then st.similar_tracks ++ [t]
        else st.similar_tracks := by
  cases hb : chooseBucket ctx st t <;> simp [classifyTrack, hb]

lemma scanSeed_similar_length_le {α : Type} (ctx : SeedCtx α) (sc : Nat) :
    ∀ (cands : List α) (st : ScanState α) (fs : Option ℚ) (acc : Nat), acc < sc →
      (scanSeed ctx sc cands st fs acc).similar_tracks.length + acc
        ≤ st.similar_tracks.length + sc := by
  intro cands
  induction cands with
  | nil =>
    intro st fs acc h
    simp only [scanSeed]
    omega
  | cons t rest ih =>
    intro st fs acc h
    have hs := classifyTrack_similar_spec ctx st t
    simp only [scanSeed]
    split
    · omega
    · split
      next hacc =>
        rw [if_pos hacc] at hs
        split
        next =>
          rw [hs]
          simp only [List.length_append, List.length_singleton]
          omega
        next =>
          have h2 := ih (classifyTrack ctx st t).1 (some (fs.getD (ctx.similarity t)))
            (acc + 1) (by omega)
          rw [hs] at h2
          simp only [List.length_append, List.length_singleton] at h2
          omega
      next hacc =>
        rw [if_neg hacc] at hs
        have h2 := ih (classifyTrack ctx st t).1 (some (fs.getD (ctx.similarity t))) acc h
        rw [hs] at h2
        omega

/-- Backfilled accepted list before the final sort (app.py, lines 298-317):
the accepted tracks after alternates replacement, topped up from the
filtered-by-previous, filtered-by-current and filtered-by-seeds lists in
that order. -/
def mergedTracks {α : Type} (sim : α → ℚ) (choose : List α → Nat) (st : ScanState α) :
    List α :=
  backfillStep sim
    (backfillStep sim
      (backfillStep sim (applyMatchedArtists choose st.matched_artists st.similar_tracks)
        st.filtered_by_previous_tracks)
      st.filtered_by_current_tracks)
    st.filtered_by_seeds_tracks

lemma sortBySim_sorted {α : Type} (sim : α → ℚ) (l : List α) :
    List.Sorted (fun a b => sim a ≤ sim b) (sortBySim sim l) := by
  haveI : IsTotal α (fun a b => sim a ≤ sim b) := ⟨fun a b => le_total _ _⟩
  haveI : IsTrans α (fun a b => sim a ≤ sim b) := ⟨fun _ _ _ hab hbc => le_trans hab hbc⟩
  exact List.sorted_insertionSort _ l

unseal Rat.add Rat.sub Rat.mul Rat.inv in
/-- C7 (counterexample): with count 5 and shuffle on, the per-seed
acceptance cap is similarity_count true 5 = 20 = count times SHUFFLE_FACTOR
with SHUFFLE_FACTOR = 4: a scan of sixteen usable candidates accepts all
sixteen, while the cap of count times three asserted by the claim would
have stopped acceptance at fifteen. -/
theorem accept_cap_not_fifteen :
    similarity_count true 5 = 20 ∧
    (scanSeed ctx0 (similarity_count true 5) (List.range 16)
      (ScanState.empty Nat) none 0).similar_tracks.length = 16 ∧
    ¬ (16 ≤ 5 * 3) := by
  decide

/-- C7 (amended): the shuffle factor is 4, per-seed acceptance stops at
count times shuffle factor (a scan started with acc accepted never grows the
accepted list past the cap), and the final ordering sorts the backfilled
accepted list by ascending similarity, truncates it to count times
SHUFFLE_FACTOR, then, when shuffle is on, applies the random permutation and
truncates to count (without shuffle it truncates to count directly); the
result never exceeds count entries. -/
theorem accept_cap_and_final_order :
    SHUFFLE_FACTOR = 4 ∧
    (∀ {α : Type} (ctx : SeedCtx α) (sc : Nat) (cands : List α) (st : ScanState α)
      (fs : Option ℚ) (acc : Nat), acc < sc →
      (scanSeed ctx sc cands st fs acc).similar_tracks.length + acc
        ≤ st.similar_tracks.length + sc) ∧
    (∀ {α : Type} (sim : α → ℚ) (choose : List α → Nat) (perm : List α → List α)
      (count : Nat) (st : ScanState α),
      List.Sorted (fun a b => sim a ≤ sim b) (sortBySim sim (mergedTracks sim choose st)) ∧
      postProcess sim choose perm true count st
        = (perm ((sortBySim sim (mergedTracks sim choose st)).take
            (count * SHUFFLE_FACTOR))).take count ∧
      postProcess sim choose perm false count st
        = (sortBySim sim (mergedTracks sim choose st)).take count ∧
      ∀ shuffle : Bool, (postProcess sim choose perm shuffle count st).length ≤ count) := by
  refine ⟨rfl, ?_, ?_⟩
  · intro α ctx sc cands st fs acc h
    exact scanSeed_similar_length_le ctx sc cands st fs acc h
  · intro α sim choose perm count st
    refine ⟨sortBySim_sorted sim _, rfl, rfl, ?_⟩
    intro shuffle
    cases shuffle
    · rw [show postProcess sim choose perm false count st
          = (sortBySim sim (mergedTracks sim choose st)).take count from rfl]
      exact List.length_take_le count _
    · rw [show postProcess sim choose perm true count st
          = (perm ((sortBySim sim (mergedTracks sim choose st)).take
              (count * SHUFFLE_FACTOR))).take count from rfl]
      exact List.length_take_le count _

/-- Witness for the amended C7: the acceptance-cap bound applied to a
concrete scan of five usable candidates with cap three. -/
theorem accept_cap_and_final_order_witness :
    (scanSeed ctx0 3 [0, 1, 2, 3, 4] (ScanState.empty Nat) none 0).similar_tracks.length + 0
      ≤ (ScanState.empty Nat).similar_tracks.length + 3 :=
  accept_cap_and_final_order.2.1 ctx0 3 [0, 1, 2, 3, 4] (ScanState.empty Nat) none 0
    (by omega)

lemma dictSet_mem {α : Type} (m : List (List Char × MatchedEntry α)) (k : List Char)
    (v : MatchedEntry α) : ∀ p ∈ dictSet m k v, p ∈ m ∨ p = (k, v) := by
  induction m with
  | nil =>
    intro p hp
    simp only [dictSet, List.mem_singleton] at hp
    exact Or.inr hp
  | cons q m ih =>
    intro p hp
    simp only [dictSet] at hp
    by_cases hk : q.1 = k
    · rw [if_pos hk] at hp
      rcases List.mem_cons.mp hp with rfl | hp
      · exact Or.inr rfl
      · exact Or.inl (List.mem_cons_of_mem _ hp)
    · rw [if_neg hk] at hp
      rcases List.mem_cons.mp hp with rfl | hp
      · exact Or.inl (List.mem_cons_self _ _)
      · rcases ih p hp with h | h
        · exact Or.inl (List.mem_cons_of_mem _ h)
        · exact Or.inr h

lemma lookup_mem {α : Type} (m : List (List Char × MatchedEntry α)) (k : List Char)
    (e : MatchedEntry α) (h : m.lookup k = some e) : (k, e) ∈ m := by
  induction m with
  | nil => simp [List.lookup] at h
  | cons q m ih =>
    rw [List.lookup] at h
    cases hk : (k == q.1)
    · rw [hk] at h
      exact List.mem_cons_of_mem _ (ih h)
    · rw [hk] at h
      cases h
      have hq : k = q.1 := by simpa using hk
      rcases q with ⟨k', v'⟩
      simp only at hq
      rw [hq]
      exact List.mem_cons_self _ _

/-- Per-bucket membership bookkeeping: each list of the classified state is
the corresponding input list possibly extended by the classified track, and
each alternates pool holds only tracks from the input pools or the track. -/
lemma classifyTrack_mem_spec {α : Type} (ctx : SeedCtx α) (st : ScanState α) (t : α) :
    (∀ x ∈ (classifyTrack ctx st t).1.similar_tracks, x ∈ st.similar_tracks ∨ x = t) ∧
    (∀ x ∈ (classifyTrack ctx st t).1.filtered_by_seeds_tracks,
      x ∈ st.filtered_by_seeds_tracks ∨ x = t) ∧
    (∀ x ∈ (classifyTrack ctx st t).1.filtered_by_current_tracks,
      x ∈ st.filtered_by_current_tracks ∨ x = t) ∧
    (∀ x ∈ (classifyTrack ctx st t).1.filtered_by_previous_tracks,
      x ∈ st.filtered_by_previous_tracks ∨ x = t) ∧
    (∀ p ∈ (classifyTrack ctx st t).1.matched_artists, ∀ x ∈ p.2.tracks,
      (∃ q ∈ st.matched_artists, x ∈ q.2.tracks) ∨ x = t) := by
  cases hb : chooseBucket ctx st t
  case discard =>
    simp only [classifyTrack, hb]
    exact ⟨fun x hx => Or.inl hx, fun x hx => Or.inl hx, fun x hx => Or.inl hx,
      fun x hx => Or.inl hx, fun p hp x hx => Or.inl ⟨p, hp, hx⟩⟩
  case bySeeds =>
    simp only [classifyTrack, hb]
    refine ⟨fun x hx => Or.inl hx, fun x hx => ?_, fun x hx => Or.inl hx,
      fun x hx => Or.inl hx, fun p hp x hx => Or.inl ⟨p, hp, hx⟩⟩
    rcases List.mem_append.mp hx with h | h
    · exact Or.inl h
    · exact Or.inr (List.mem_singleton.mp h)
  case byCurrent =>
    simp only [classifyTrack, hb]
    refine ⟨fun x hx => Or.inl hx, fun x hx => Or.inl hx, fun x hx => ?_,
      fun x hx => Or.inl hx, fun p hp x hx => ?_⟩
    · rcases List.mem_append.mp hx with h | h
      · exact Or.inl h
      · exact Or.inr (List.mem_singleton.mp h)
    · revert hp
      cases hl : st.matched_artists.lookup (ctx.artist t)
      case none =>
        intro hp
        exact Or.inl ⟨p, hp, hx⟩
      case some e =>
        dsimp only
        by_cases hsim : ctx.similarity t - e.similarity ≤ 1/4
        · rw [if_pos hsim]
          intro hp
          rcases dictSet_mem _ _ _ p hp with h | rfl
          · exact Or.inl ⟨p, h, hx⟩
          · simp only at hx
            rcases List.mem_append.mp hx with h | h
            · exact Or.inl ⟨(ctx.artist t, e), lookup_mem _ _ _ hl, h⟩
            · exact Or.inr (List.mem_singleton.mp h)
        · rw [if_neg hsim]
          intro hp
          exact Or.inl ⟨p, hp, hx⟩
  case byPrevArtist =>
    simp only [classifyTrack, hb]
    refine ⟨fun x hx => Or.inl hx, fun x hx => Or.inl hx, fun x hx => Or.inl hx,
      fun x hx => ?_, fun p hp x hx => Or.inl ⟨p, hp, hx⟩⟩
    rcases List.mem_append.mp hx with h | h
    · exact Or.inl h
    · exact Or.inr (List.mem_singleton.mp h)
  case byPrevAlbum =>
    simp only [classifyTrack, hb]
    refine ⟨fun x hx => Or.inl hx, fun x hx => Or.inl hx, fun x hx => Or.inl hx,
      fun x hx => ?_, fun p hp x hx => Or.inl ⟨p, hp, hx⟩⟩
    rcases List.mem_append.mp hx with h | h
    · exact Or.inl h
    · exact Or.inr (List.mem_singleton.mp h)
  case byTitle =>
    simp only [classifyTrack, hb]
    refine ⟨fun x hx => Or.inl hx, fun x hx => Or.inl hx, fun x hx => Or.inl hx,
      fun x hx => ?_, fun p hp x hx => Or.inl ⟨p, hp, hx⟩⟩
    rcases List.mem_append.mp hx with h | h
    · exact Or.inl h
    · exact Or.inr (List.mem_singleton.mp h)
  case usable =>
    simp only [classifyTrack, hb]
    refine ⟨fun x hx => ?_, fun x hx => Or.inl hx, fun x hx => Or.inl hx,
      fun x hx => Or.inl hx, fun p hp x hx => ?_⟩
    · rcases List.mem_append.mp hx with h | h
      · exact Or.inl h
      · exact Or.inr (List.mem_singleton.mp h)
    · rcases dictSet_mem _ _ _ p hp with h | rfl
      · exact Or.inl ⟨p, h, hx⟩
      · simp only at hx
        exact Or.inr (List.mem_singleton.mp hx)

/-- Lists of the scan state that the similarity-range invariant tracks:
every element of the output list is an element of the input list or has
similarity at most the bound. -/
def MemBound {α : Type} (ctx : SeedCtx α) (b : ℚ) (old new : List α) : Prop :=
  ∀ x ∈ new, x ∈ old ∨ ctx.similarity x ≤ b

/-- Pool form of the similarity-range invariant. -/
def PoolBound {α : Type} (ctx : SeedCtx α) (b : ℚ)
    (old new : List (List Char × MatchedEntry α)) : Prop :=
  ∀ p ∈ new, ∀ x ∈ p.2.tracks, (∃ q ∈ old, x ∈ q.2.tracks) ∨ ctx.similarity x ≤ b

lemma MemBound_compose {α : Type} {ctx : SeedCtx α} {b : ℚ} {old mid new : List α} {t : α}
    (hmid : ∀ x ∈ mid, x ∈ old ∨ x = t) (ht : ctx.similarity t ≤ b)
    (hnew : MemBound ctx b mid new) : MemBound ctx b old new := by
  intro x hx
  rcases hnew x hx with h | h
  · rcases hmid x h with h' | rfl
    · exact Or.inl h'
    · exact Or.inr ht
  · exact Or.inr h

lemma PoolBound_compose {α : Type} {ctx : SeedCtx α} {b : ℚ}
    {old mid new : List (List Char × MatchedEntry α)} {t : α}
    (hmid : ∀ p ∈ mid, ∀ x ∈ p.2.tracks, (∃ q ∈ old, x ∈ q.2.tracks) ∨ x = t)
    (ht : ctx.similarity t ≤ b) (hnew : PoolBound ctx b mid new) :
    PoolBound ctx b old new := by
  intro p hp x hx
  rcases hnew p hp x hx with h | h
  · rcases h with ⟨q, hq, hxq⟩
    rcases hmid q hq x hxq with h' | rfl
    · exact Or.inl h'
    · exact Or.inr ht
  · exact Or.inr h

/-- Similarity-range invariant of the scan once the first similarity is
recorded: every track newly placed in any list or pool while scanning with
first similarity f has similarity at most f + MAX_SIM_RANGE. -/
lemma scanSeed_some_bound {α : Type} (ctx : SeedCtx α) (sc : Nat) :
    ∀ (cands : List α) (st : ScanState α) (f : ℚ) (acc : Nat),
      MemBound ctx (f + MAX_SIM_RANGE) st.similar_tracks
        (scanSeed ctx sc cands st (some f) acc).similar_tracks ∧
      MemBound ctx (f + MAX_SIM_RANGE) st.filtered_by_seeds_tracks
        (scanSeed ctx sc cands st (some f) acc).filtered_by_seeds_tracks ∧
      MemBound ctx (f + MAX_SIM_RANGE) st.filtered_by_current_tracks
        (scanSeed ctx sc cands st (some f) acc).filtered_by_current_tracks ∧
      MemBound ctx (f + MAX_SIM_RANGE) st.filtered_by_previous_tracks
        (scanSeed ctx sc cands st (some f) acc).filtered_by_previous_tracks ∧
      PoolBound ctx (f + MAX_SIM_RANGE) st.matched_artists
        (scanSeed ctx sc cands st (some f) acc).matched_artists := by
  intro cands
  induction cands with
  | nil =>
    intro st f acc
    simp only [scanSeed]
    exact ⟨fun x hx => Or.inl hx, fun x hx => Or.inl hx, fun x hx => Or.inl hx,
      fun x hx => Or.inl hx, fun p hp x hx => Or.inl ⟨p, hp, hx⟩⟩
  | cons t rest ih =>
    intro st f acc
    simp only [scanSeed, Option.isSome_some, Option.getD_some, true_and]
    split
    next =>
      exact ⟨fun x hx => Or.inl hx, fun x hx => Or.inl hx, fun x hx => Or.inl hx,
        fun x hx => Or.inl hx, fun p hp x hx => Or.inl ⟨p, hp, hx⟩⟩
    next hrange =>
      have ht : ctx.similarity t ≤ f + MAX_SIM_RANGE := by
        have h1 : ¬ (ctx.similarity t - f > MAX_SIM_RANGE) := hrange
        push_neg at h1
        linarith
      have hcl := classifyTrack_mem_spec ctx st t
      split
      next =>
        split
        next =>
          exact ⟨MemBound_compose hcl.1 ht (fun x hx => Or.inl hx),
            MemBound_compose hcl.2.1 ht (fun x hx => Or.inl hx),
            MemBound_compose hcl.2.2.1 ht (fun x hx => Or.inl hx),
            MemBound_compose hcl.2.2.2.1 ht (fun x hx => Or.inl hx),
            PoolBound_compose hcl.2.2.2.2 ht (fun p hp x hx => Or.inl ⟨p, hp, hx⟩)⟩
        next =>
          have hrec := ih (classifyTrack ctx st t).1 f (acc + 1)
          exact ⟨MemBound_compose hcl.1 ht hrec.1,
            MemBound_compose hcl.2.1 ht hrec.2.1,
            MemBound_compose hcl.2.2.1 ht hrec.2.2.1,
            MemBound_compose hcl.2.2.2.1 ht hrec.2.2.2.1,
            PoolBound_compose hcl.2.2.2.2 ht hrec.2.2.2.2⟩
      next =>
        have hrec := ih (classifyTrack ctx st t).1 f acc
        exact ⟨MemBound_compose hcl.1 ht hrec.1,
          MemBound_compose hcl.2.1 ht hrec.2.1,
          MemBound_compose hcl.2.2.1 ht hrec.2.2.1,
          MemBound_compose hcl.2.2.2.1 ht hrec.2.2.2.1,
          PoolBound_compose hcl.2.2.2.2 ht hrec.2.2.2.2⟩

/-- C9: candidate scanning for a seed stops at the first candidate whose
similarity exceeds the first candidate's similarity by more than
MAX_SIM_RANGE = 0.5 (second conjunct), and consequently every track that the
scan of a seed's neighbour list accepts, places in any filtered list, or
pools as an artist alternate has similarity at most the first candidate's
similarity plus MAX_SIM_RANGE (first conjunct, stated as: any track newly
present in the output state obeys the bound). -/
theorem sim_range_invariant {α : Type} (ctx : SeedCtx α) (sc : Nat) (t : α)
    (rest : List α) (st : ScanState α) (acc : Nat) :
    (MemBound ctx (ctx.similarity t + MAX_SIM_RANGE) st.similar_tracks
      (scanSeed ctx sc (t :: rest) st none acc).similar_tracks ∧
     MemBound ctx (ctx.similarity t + MAX_SIM_RANGE) st.filtered_by_seeds_tracks
      (scanSeed ctx sc (t :: rest) st none acc).filtered_by_seeds_tracks ∧
     MemBound ctx (ctx.similarity t + MAX_SIM_RANGE) st.filtered_by_current_tracks
      (scanSeed ctx sc (t :: rest) st none acc).filtered_by_current_tracks ∧
     MemBound ctx (ctx.similarity t + MAX_SIM_RANGE) st.filtered_by_previous_tracks
      (scanSeed ctx sc (t :: rest) st none acc).filtered_by_previous_tracks ∧
     PoolBound ctx (ctx.similarity t + MAX_SIM_RANGE) st.matched_artists
      (scanSeed ctx sc (t :: rest) st none acc).matched_artists) ∧
    (∀ (f : ℚ) (u : α) (rest' : List α) (st' : ScanState α) (acc' : Nat),
      ctx.similarity u - f > MAX_SIM_RANGE →
      scanSeed ctx sc (u :: rest') st' (some f) acc' = st') := by
  constructor
  · have ht : ctx.similarity t ≤ ctx.similarity t + MAX_SIM_RANGE := by
      have : (0 : ℚ) ≤ MAX_SIM_RANGE := by norm_num [MAX_SIM_RANGE]
      linarith
    have hcl := classifyTrack_mem_spec ctx st t
    simp only [scanSeed, Option.isSome_none, Bool.false_eq_true, false_and, if_false,
      Option.getD_none]
    split
    next =>
      split
      next =>
        exact ⟨MemBound_compose hcl.1 ht (fun x hx => Or.inl hx),
          MemBound_compose hcl.2.1 ht (fun x hx => Or.inl hx),
          MemBound_compose hcl.2.2.1 ht (fun x hx => Or.inl hx),
          MemBound_compose hcl.2.2.2.1 ht (fun x hx => Or.inl hx),
          PoolBound_compose hcl.2.2.2.2 ht (fun p hp x hx => Or.inl ⟨p, hp, hx⟩)⟩
      next =>
        have hrec := scanSeed_some_bound ctx sc rest (classifyTrack ctx st t).1
          (ctx.similarity t) (acc + 1)
        exact ⟨MemBound_compose hcl.1 ht hrec.1,
          MemBound_compose hcl.2.1 ht hrec.2.1,
          MemBound_compose hcl.2.2.1 ht hrec.2.2.1,
          MemBound_compose hcl.2.2.2.1 ht hrec.2.2.2.1,
          PoolBound_compose hcl.2.2.2.2 ht hrec.2.2.2.2⟩
    next =>
      have hrec := scanSeed_some_bound ctx sc rest (classifyTrack ctx st t).1
        (ctx.similarity t) acc
      exact ⟨MemBound_compose hcl.1 ht hrec.1,
        MemBound_compose hcl.2.1 ht hrec.2.1,
        MemBound_compose hcl.2.2.1 ht hrec.2.2.1,
        MemBound_compose hcl.2.2.2.1 ht hrec.2.2.2.1,
        PoolBound_compose hcl.2.2.2.2 ht hrec.2.2.2.2⟩
  · intro f u rest' st' acc' hgt
    simp only [scanSeed, Option.isSome_some, Option.getD_some, true_and]
    rw [if_pos hgt]

unseal Rat.add Rat.sub Rat.mul Rat.inv in
/-- Witness for C9: on a concrete two-candidate scan (similarities all
zero), the second candidate ends up accepted, and the invariant applied to
it yields its similarity bound relative to the first candidate. -/
theorem sim_range_invariant_witness :
    ctx0.similarity 1 ≤ ctx0.similarity 0 + MAX_SIM_RANGE := by
  have h := (sim_range_invariant ctx0 5 0 [1] (ScanState.empty Nat) 0).1.1
  have hmem : (1 : Nat) ∈ (scanSeed ctx0 5 [0, 1] (ScanState.empty Nat) none 0).similar_tracks := by
    decide
  rcases h 1 hmem with hc | hc
  · exact absurd hc (by decide)
  · exact hc

lemma rankedNeighbours_length (m : List (List ℚ)) (q : List ℚ) :
    (rankedNeighbours m q).length = m.length := by
  simp [rankedNeighbours, List.length_insertionSort, List.enum_length]

lemma rankedNeighbours_sorted (m : List (List ℚ)) (q : List ℚ) :
    List.Sorted (fun a b : Nat × ℚ => a.2 ≤ b.2) (rankedNeighbours m q) := by
  haveI : IsTotal (Nat × ℚ) (fun a b => a.2 ≤ b.2) := ⟨fun a b => le_total _ _⟩
  haveI : IsTrans (Nat × ℚ) (fun a b => a.2 ≤ b.2) := ⟨fun _ _ _ hab hbc => le_trans hab hbc⟩
  exact List.sorted_insertionSort _ _

lemma max_sim_sq_pos : (0 : ℚ) < max_sim_sq := by
  norm_num [max_sim_sq, NUM_ATTRIBS]

lemma similarEntries_length (tree : List (List ℚ)) (q : List ℚ) (k n : Nat)
    (h : tree.length = n) : (similarEntries tree q k n).length = min k n - 1 := by
  simp only [similarEntries, List.length_map, List.length_drop, List.length_take,
    rankedNeighbours_length, h]
  omega

lemma similarEntries_sorted (tree : List (List ℚ)) (q : List ℚ) (k n : Nat) :
    List.Sorted (fun a b : SimEntry => a.simSq ≤ b.simSq) (similarEntries tree q k n) := by
  have hs := rankedNeighbours_sorted tree q
  have hsub : (((rankedNeighbours tree q).take (min k n)).drop 1).Sublist
      (rankedNeighbours tree q) :=
    (List.drop_sublist 1 _).trans (List.take_sublist (min k n) _)
  have hps := List.Pairwise.sublist hsub hs
  unfold similarEntries
  exact List.Pairwise.map _
    (fun a b hab => (div_le_div_iff_of_pos_right max_sim_sq_pos).mpr hab) hps

lemma similarEntries_first_le (tree : List (List ℚ)) (q : List ℚ) (k n : Nat)
    (hd : Nat × ℚ) (tl : List (Nat × ℚ)) (hr : rankedNeighbours tree q = hd :: tl) :
    ∀ e ∈ similarEntries tree q k n, hd.2 / max_sim_sq ≤ e.simSq := by
  intro e he
  unfold similarEntries at he
  rcases List.mem_map.mp he with ⟨p, hp, rfl⟩
  have hptl : p ∈ tl := by
    rw [hr] at hp
    cases hm : min k n with
    | zero => rw [hm] at hp; simp at hp
    | succ m =>
      rw [hm, List.take_succ_cons] at hp
      simp only [List.drop_succ_cons, List.drop_zero] at hp
      exact List.Sublist.mem hp (List.take_sublist m tl)
  have hsort := rankedNeighbours_sorted tree q
  rw [hr] at hsort
  have hle : hd.2 ≤ p.2 := (List.sorted_cons.mp hsort).1 p hptl
  exact (div_le_div_iff_of_pos_right max_sim_sq_pos).mpr hle

lemma rebuildAttribs_length (groups : List (List Nat)) (tracks : List DbTrack)
    (attribs : List (List ℚ)) (m : Bool) (g : Nat) :
    (rebuildAttribs groups tracks attribs m g).length = min attribs.length tracks.length := by
  simp [rebuildAttribs]

lemma nextLastCall_tree_length (db : TracksDb) (groups : List (List Nat))
    (last : Option LastCall) (seed : SeedEntry) (m : Bool)
    (hattr : db.attribs.length = db.tracks.length)
    (hcache : ∀ lc, last = some lc → lc.tree.length = db.tracks.length) :
    (nextLastCall db groups last seed m).tree.length = db.tracks.length := by
  simp only [nextLastCall]
  split
  · simp [rebuildAttribs_length, hattr]
  next h =>
    cases last with
    | none => simp [needRebuild] at h
    | some lc => simpa using hcache lc rfl

/-- C1 (amended): every call of get_similar_tracks runs the k-nearest-
neighbour query with k = count + num_skip (after the non-positive-count
substitution), and returns the (entry, squared-similarity) list in
ascending distance with the first returned neighbour — the slot the seed
occupies when it is returned first — omitted, so the result holds
min(k, number of tracks) - 1 entries, each at least as distant as the
omitted first neighbour. -/
theorem knn_query_shape (db : TracksDb) (groups : List (List Nat)) (last : Option LastCall)
    (seed : SeedEntry) (match_all_genres : Bool) (num_skip : Nat) (count : Int)
    (hattr : db.attribs.length = db.tracks.length)
    (hcache : ∀ lc, last = some lc → lc.tree.length = db.tracks.length) :
    (get_similar_tracks db groups last seed match_all_genres num_skip count).1.length
      = min ((if count ≤ 0 then db.tracks.length else count.toNat) + num_skip)
          db.tracks.length - 1 ∧
    List.Sorted (fun a b : SimEntry => a.simSq ≤ b.simSq)
      (get_similar_tracks db groups last seed match_all_genres num_skip count).1 ∧
    ∀ lc, (get_similar_tracks db groups last seed match_all_genres num_skip count).2
        = some lc →
      ∀ hd tl, rankedNeighbours lc.tree seed.attribs = hd :: tl →
        ∀ e ∈ (get_similar_tracks db groups last seed match_all_genres num_skip count).1,
          hd.2 / max_sim_sq ≤ e.simSq := by
  have htree := nextLastCall_tree_length db groups last seed match_all_genres hattr hcache
  refine ⟨similarEntries_length _ _ _ _ htree, similarEntries_sorted _ _ _ _, ?_⟩
  intro lc hlc hd tl hr e he
  have hlc' : nextLastCall db groups last seed match_all_genres = lc := by
    simpa [get_similar_tracks] using hlc
  rw [← hlc'] at hr
  exact similarEntries_first_le _ _ _ _ hd tl hr e he

/-- Concrete catalog track number i: eleven zero attributes and a twelfth
attribute equal to i, primary genre 1. -/
def trackB (i : Nat) : DbTrack :=
  { file := [], title := [], artist := [], album := [], albumartist := [],
    duration := 100, rowid := i, genres := [], igenres := [1],
    feats := List.replicate 11 0 ++ [(i : ℚ)] }

/-- Concrete seven-track database. -/
def dbB : TracksDb :=
  { tracks := (List.range 7).map trackB,
    attribs := ((List.range 7).map trackB).map (fun t => t.feats ++ [5]) }

/-- Seed entry matching track number 0 of the concrete database. -/
def seedB : SeedEntry := { igenres := [1], attribs := (trackB 0).feats ++ [0] }

unseal Rat.add Rat.sub Rat.mul Rat.inv in
/-- C1 (counterexample): on a seven-track catalog with count 5 and num_skip
0 the engine returns four entries, that is min(5 + 0, 7) - 1, whereas the
claimed query size k = count + num_skip + 1 = 6 with the seed omitted would
return five. -/
theorem knn_k_counterexample :
    (get_similar_tracks dbB [] none seedB false 0 5).1.length = 4 ∧ (4 : Nat) ≠ 5 := by
  decide

/-- Witness for the amended C1 on the concrete seven-track database. -/
theorem knn_query_shape_witness :
    (get_similar_tracks dbB [] none seedB false 0 5).1.length
      = min ((if (5 : Int) ≤ 0 then dbB.tracks.length else (5 : Int).toNat) + 0)
          dbB.tracks.length - 1 :=
  (knn_query_shape dbB [] none seedB false 0 5 (by decide)
    (fun lc h => Option.noConfusion h)).1

lemma genre_difference_bounds (groups : List (List Nat)) (g h : Nat) :
    0 ≤ genre_difference groups g h ∧ genre_difference groups g h ≤ 1 := by
  simp only [genre_difference]
  constructor <;> split_ifs <;> norm_num

lemma sqDist_nonneg (v : List ℚ) : ∀ w : List ℚ, 0 ≤ sqDist v w := by
  induction v with
  | nil => intro w; simp [sqDist]
  | cons a v ih =>
    intro w
    cases w with
    | nil => simp [sqDist]
    | cons b w =>
      simp only [sqDist, List.zipWith_cons_cons, List.sum_cons]
      have h1 : 0 ≤ (a - b) ^ 2 := sq_nonneg _
      have h2 := ih w
      simp only [sqDist] at h2
      linarith

lemma sqDist_le_length (v : List ℚ) : ∀ w : List ℚ,
    (∀ x ∈ v, 0 ≤ x ∧ x ≤ 1) → (∀ x ∈ w, 0 ≤ x ∧ x ≤ 1) →
    sqDist v w ≤ ((List.zipWith (fun a b => (a - b) ^ 2) v w).length : ℚ) := by
  induction v with
  | nil => intro w _ _; simp [sqDist]
  | cons a v ih =>
    intro w hv hw
    cases w with
    | nil => simp [sqDist]
    | cons b w =>
      simp only [sqDist, List.zipWith_cons_cons, List.sum_cons, List.length_cons]
      have ha := hv a (List.mem_cons_self _ _)
      have hb := hw b (List.mem_cons_self _ _)
      have h1 : (a - b) ^ 2 ≤ 1 := by
        have hp1 : 0 ≤ 1 - a + b := by linarith [ha.2, hb.1]
        have hp2 : 0 ≤ 1 + a - b := by linarith [ha.1, hb.2]
        nlinarith [mul_nonneg hp1 hp2]
      have h2 := ih w (fun x hx => hv x (List.mem_cons_of_mem _ hx))
        (fun x hx => hw x (List.mem_cons_of_mem _ hx))
      simp only [sqDist] at h2
      push_cast
      linarith

lemma sqDist_self (v : List ℚ) : sqDist v v = 0 := by
  induction v with
  | nil => simp [sqDist]
  | cons a v ih =>
    simp only [sqDist, List.zipWith_cons_cons, List.sum_cons]
    simp only [sqDist] at ih
    simp [ih]

lemma sqDist_append_last (u v : List ℚ) (a b : ℚ) (h : u.length = v.length) :
    sqDist (u ++ [a]) (v ++ [b]) = sqDist u v + (a - b) ^ 2 := by
  unfold sqDist
  rw [List.zipWith_append _ _ _ _ _ h]
  simp

lemma set_append_len (xs : List ℚ) (a b : ℚ) : (xs ++ [a]).set xs.length b = xs ++ [b] := by
  induction xs with
  | nil => rfl
  | cons x xs ih => simp [List.set, ih]

lemma rebuildAttribs_shape (groups : List (List Nat)) (mb : Bool) (g : Nat) :
    ∀ tracks : List DbTrack, (∀ t ∈ tracks, t.feats.length = NUM_ATTRIBS) →
      ∀ row ∈ rebuildAttribs groups tracks (tracks.map (fun t => t.feats ++ [5])) mb g,
        ∃ t ∈ tracks, row = t.feats
          ++ [if mb then (0:ℚ) else genre_difference groups g (t.igenres.headD 0)] := by
  intro tracks
  induction tracks with
  | nil =>
    intro _ row hrow
    simp [rebuildAttribs] at hrow
  | cons t ts ih =>
    intro hlen row hrow
    simp only [rebuildAttribs, List.map_cons, List.zip_cons_cons] at hrow
    rcases List.mem_cons.mp hrow with heq | hmem
    · refine ⟨t, List.mem_cons_self _ _, ?_⟩
      rw [heq]
      have hl : NUM_ATTRIBS = t.feats.length := (hlen t (List.mem_cons_self _ _)).symm
      rw [hl]
      exact set_append_len t.feats 5 _
    · have := ih (fun u hu => hlen u (List.mem_cons_of_mem _ hu)) row
        (by simpa [rebuildAttribs] using hmem)
      rcases this with ⟨u, hu, he⟩
      exact ⟨u, List.mem_cons_of_mem _ hu, he⟩

lemma similarEntries_mem (tree : List (List ℚ)) (q : List ℚ) (k n : Nat) :
    ∀ e ∈ similarEntries tree q k n, ∃ row ∈ tree, e.simSq = sqDist q row / max_sim_sq := by
  intro e he
  unfold similarEntries at he
  rcases List.mem_map.mp he with ⟨p, hp, rfl⟩
  have hpr : p ∈ rankedNeighbours tree q :=
    List.Sublist.mem hp ((List.drop_sublist 1 _).trans (List.take_sublist (min k n) _))
  have hpe : p ∈ (tree.map (sqDist q)).enum :=
    ((List.perm_insertionSort _ _).mem_iff).mp hpr
  rcases p with ⟨i, d⟩
  rw [List.mk_mem_enum_iff_getElem?, List.getElem?_map] at hpe
  cases htree : tree[i]? with
  | none => rw [htree] at hpe; simp at hpe
  | some row =>
    rw [htree] at hpe
    simp only [Option.map] at hpe
    refine ⟨row, List.getElem?_mem htree, ?_⟩
    cases hpe
    rfl

/-- C4 (amended): for every fresh similar-tracks query, every returned
entry's squared similarity equals the squared Euclidean distance from the
seed vector to a tree row divided by max_sim_sq = 13 (so the reported
similarity is euclidean_distance divided by sqrt 13) and lies in the unit
interval when every catalog feature lies in the unit interval; the diagonal
genre difference is 0.1, so the seed's squared similarity to its own tree
row is 0 when match_all_genres is on but (0.1)^2/13 = 1/1300 — a nonzero
value, similarity 0.1/sqrt(13) — when it is off. -/
theorem similarity_normalised (db : TracksDb) (groups : List (List Nat)) (seed : SeedEntry)
    (match_all_genres : Bool) (num_skip : Nat) (count : Int) (sfeats : List ℚ)
    (hdb : db.attribs = db.tracks.map (fun t => t.feats ++ [5]))
    (hfeats : ∀ t ∈ db.tracks, t.feats.length = NUM_ATTRIBS ∧ ∀ v ∈ t.feats, 0 ≤ v ∧ v ≤ 1)
    (hseed : seed.attribs = sfeats ++ [0])
    (hslen : sfeats.length = NUM_ATTRIBS)
    (hsrange : ∀ v ∈ sfeats, 0 ≤ v ∧ v ≤ 1) :
    (∀ e ∈ (get_similar_tracks db groups none seed match_all_genres num_skip count).1,
      ∃ row ∈ (nextLastCall db groups none seed match_all_genres).tree,
        e.simSq = sqDist seed.attribs row / max_sim_sq) ∧
    (∀ e ∈ (get_similar_tracks db groups none seed match_all_genres num_skip count).1,
      0 ≤ e.simSq ∧ e.simSq ≤ 1) ∧
    (∀ g : Nat, genre_difference groups g g = 1/10) ∧
    (sqDist seed.attribs
        (sfeats ++ [if match_all_genres then (0:ℚ)
          else genre_difference groups (seed.igenres.headD 0) (seed.igenres.headD 0)])
        / max_sim_sq
      = if match_all_genres then 0 else 1/1300) := by
  have hdiag : ∀ g : Nat, genre_difference groups g g = 1/10 := by
    intro g
    simp [genre_difference]
  have hmem : ∀ e ∈ (get_similar_tracks db groups none seed match_all_genres num_skip count).1,
      ∃ row ∈ (nextLastCall db groups none seed match_all_genres).tree,
        e.simSq = sqDist seed.attribs row / max_sim_sq := by
    intro e he
    exact similarEntries_mem _ _ _ _ e he
  refine ⟨hmem, ?_, hdiag, ?_⟩
  · intro e he
    rcases hmem e he with ⟨row, hrow, heq⟩
    have htree_eq : (nextLastCall db groups none seed match_all_genres).tree
        = rebuildAttribs groups db.tracks (db.tracks.map (fun t => t.feats ++ [5]))
            match_all_genres (seed.igenres.headD 0) := by
      simp [nextLastCall, needRebuild, hdb]
    rw [htree_eq] at hrow
    rcases rebuildAttribs_shape groups match_all_genres (seed.igenres.headD 0) db.tracks
        (fun t ht => (hfeats t ht).1) row hrow with ⟨t, ht, rfl⟩
    have htl := (hfeats t ht).1
    have htr := (hfeats t ht).2
    have hqrange : ∀ v ∈ seed.attribs, 0 ≤ v ∧ v ≤ 1 := by
      rw [hseed]
      intro v hv
      rcases List.mem_append.mp hv with h | h
      · exact hsrange v h
      · rcases List.mem_singleton.mp h with rfl
        norm_num
    have hrrange : ∀ v ∈ t.feats
        ++ [if match_all_genres then (0:ℚ)
          else genre_difference groups (seed.igenres.headD 0) (t.igenres.headD 0)],
        0 ≤ v ∧ v ≤ 1 := by
      intro v hv
      rcases List.mem_append.mp hv with h | h
      · exact htr v h
      · rcases List.mem_singleton.mp h with rfl
        cases match_all_genres
        · simpa using genre_difference_bounds groups (seed.igenres.headD 0)
            (t.igenres.headD 0)
        · norm_num
    have hbound := sqDist_le_length seed.attribs _ hqrange hrrange
    have hlen13 : ((List.zipWith (fun a b => (a - b) ^ 2) seed.attribs
        (t.feats ++ [if match_all_genres then (0:ℚ)
          else genre_difference groups (seed.igenres.headD 0) (t.igenres.headD 0)])).length : ℚ)
        = max_sim_sq := by
      rw [List.length_zipWith]
      rw [hseed]
      simp only [List.length_append, List.length_singleton, hslen, htl]
      norm_num [max_sim_sq, NUM_ATTRIBS]
    rw [hlen13] at hbound
    constructor
    · rw [heq]
      exact div_nonneg (sqDist_nonneg _ _) (le_of_lt max_sim_sq_pos)
    · rw [heq]
      exact (div_le_one max_sim_sq_pos).mpr hbound
  · rw [hseed, sqDist_append_last _ _ _ _ rfl, sqDist_self, hdiag]
    cases match_all_genres
    · norm_num [max_sim_sq, NUM_ATTRIBS]
    · norm_num [max_sim_sq, NUM_ATTRIBS]

unseal Rat.add Rat.sub Rat.mul Rat.inv in
/-- C4 (counterexample): with match_all_genres off, the seed's own row in
the rebuilt tree carries the diagonal genre difference 0.1 while the seed
query vector carries 0, so the squared seed-to-itself similarity is
(0.1)^2/13 = 1/1300, not 0 (hence the similarity itself, 0.1/sqrt(13), is
not 0), refuting the claim that it is 0 for every value of
match_all_genres. -/
theorem seed_self_similarity_not_zero :
    sqDist seedA.attribs
        ((rebuildAttribs [] [trackG 3] [(trackG 3).feats ++ [5]] false 3).headD [])
        / max_sim_sq = 1/1300 ∧ (1/1300 : ℚ) ≠ 0 := by
  decide

unseal Rat.add Rat.sub Rat.mul Rat.inv in
/-- Witness for the amended C4 on a concrete one-track database whose only
track is the seed itself. -/
theorem similarity_normalised_witness :
    sqDist seedA.attribs
        (feats0 ++ [if false then (0:ℚ)
          else genre_difference [] (seedA.igenres.headD 0) (seedA.igenres.headD 0)])
        / max_sim_sq
      = if false then 0 else 1/1300 :=
  (similarity_normalised { tracks := [trackG 3], attribs := [(trackG 3).feats ++ [5]] }
    [] seedA false 0 5 feats0 (by decide)
    (by decide) (by decide) (by decide) (by decide)).2.2.2

lemma mapMO_mem {α β : Type} (f : α → Option β) (l : List α) :
    ∀ {ys : List β}, mapMO f l = some ys → ∀ y ∈ ys, ∃ a ∈ l, f a = some y := by
  induction l with
  | nil =>
    intro ys h y hy
    simp only [mapMO] at h
    cases h
    simp at hy
  | cons a t ih =>
    intro ys h y hy
    simp only [mapMO] at h
    cases hfa : f a with
    | none => rw [hfa] at h; simp at h
    | some b =>
      rw [hfa] at h
      cases hrec : mapMO f t with
      | none => rw [hrec] at h; simp at h
      | some bs =>
        rw [hrec] at h
        cases h
        rcases List.mem_cons.mp hy with rfl | hmem
        · exact ⟨a, List.mem_cons_self _ _, hfa⟩
        · rcases ih hrec y hmem with ⟨a', ha', hfa'⟩
          exact ⟨a', List.mem_cons_of_mem _ ha', hfa'⟩

lemma loadTrack_fields (m : List (List Char)) (mb rg : ℚ) (r : TrackRow) (x : DbTrack)
    (h : loadTrack m mb rg r = some x) : x.rowid = r.rowid ∧ x.duration = r.duration := by
  unfold loadTrack at h
  cases hn : normalizeAttrs mb rg r.attrs with
  | none => rw [hn] at h; simp at h
  | some fs =>
    rw [hn] at h
    cases h
    exact ⟨rfl, rfl⟩

lemma loadDb_tracks (rows : List TrackRow) (db : TracksDb) (h : loadDb rows = some db) :
    ∀ x ∈ db.tracks, ∃ r ∈ rows, r.ignore ≠ 1 ∧ x.rowid = r.rowid ∧ x.duration = r.duration := by
  unfold loadDb at h
  cases hb : bpmBounds rows with
  | none => rw [hb] at h; simp at h
  | some bounds =>
    rw [hb] at h
    dsimp only at h
    cases hm : mapMO (loadTrack (genreMapOf rows) bounds.1 (bounds.2 - bounds.1))
        (rows.filter (fun r => r.ignore != 1)) with
    | none => rw [hm] at h; simp at h
    | some ts =>
      rw [hm] at h
      cases h
      intro x hx
      rcases mapMO_mem _ _ hm x hx with ⟨r, hrf, hload⟩
      have hr := List.mem_filter.mp hrf
      have hig : r.ignore ≠ 1 := by simpa using hr.2
      have hf := loadTrack_fields _ _ _ _ _ hload
      exact ⟨r, hr.1, hig, hf.1, hf.2⟩

lemma respModel_spec (db : TracksDb) (minD maxD : Int) (skip : List Nat) :
    ∀ x ∈ respModel db minD maxD skip,
      x ∈ db.tracks ∧ durationOk minD maxD x.duration = true := by
  intro x hx
  have h := List.mem_filter.mp hx
  have hd := h.2
  rw [Bool.and_eq_true] at hd
  exact ⟨h.1, hd.1⟩

lemma from_classify {α : Type} {old mid : List α} {t : α} (rest : List α)
    (hmid : ∀ x ∈ mid, x ∈ old ∨ x = t) :
    ∀ x ∈ mid, x ∈ old ∨ x ∈ t :: rest := by
  intro x hx
  rcases hmid x hx with h | rfl
  · exact Or.inl h
  · exact Or.inr (List.mem_cons_self _ _)

lemma from_step {α : Type} {old mid new : List α} {t : α} {rest : List α}
    (hmid : ∀ x ∈ mid, x ∈ old ∨ x = t)
    (hnew : ∀ x ∈ new, x ∈ mid ∨ x ∈ rest) :
    ∀ x ∈ new, x ∈ old ∨ x ∈ t :: rest := by
  intro x hx
  rcases hnew x hx with h | h
  · exact from_classify rest hmid x h
  · exact Or.inr (List.mem_cons_of_mem _ h)

lemma pool_from_classify {α : Type} {old mid : List (List Char × MatchedEntry α)} {t : α}
    (rest : List α)
    (hmid : ∀ p ∈ mid, ∀ x ∈ p.2.tracks, (∃ q ∈ old, x ∈ q.2.tracks) ∨ x = t) :
    ∀ p ∈ mid, ∀ x ∈ p.2.tracks, (∃ q ∈ old, x ∈ q.2.tracks) ∨ x ∈ t :: rest := by
  intro p hp x hx
  rcases hmid p hp x hx with h | rfl
  · exact Or.inl h
  · exact Or.inr (List.mem_cons_self _ _)

lemma pool_from_step {α : Type} {old mid new : List (List Char × MatchedEntry α)} {t : α}
    {rest : List α}
    (hmid : ∀ p ∈ mid, ∀ x ∈ p.2.tracks, (∃ q ∈ old, x ∈ q.2.tracks) ∨ x = t)
    (hnew : ∀ p ∈ new, ∀ x ∈ p.2.tracks, (∃ q ∈ mid, x ∈ q.2.tracks) ∨ x ∈ rest) :
    ∀ p ∈ new, ∀ x ∈ p.2.tracks, (∃ q ∈ old, x ∈ q.2.tracks) ∨ x ∈ t :: rest := by
  intro p hp x hx
  rcases hnew p hp x hx with h | h
  · rcases h with ⟨q, hq, hxq⟩
    exact pool_from_classify rest hmid q hq x hxq
  · exact Or.inr (List.mem_cons_of_mem _ h)

/-- Provenance of the per-seed scan: every track in any output list or pool
was already present in the input state or is one of the scanned
candidates. -/
lemma scanSeed_mem {α : Type} (ctx : SeedCtx α) (sc : Nat) :
    ∀ (cands : List α) (st : ScanState α) (fs : Option ℚ) (acc : Nat),
      (∀ x ∈ (scanSeed ctx sc cands st fs acc).similar_tracks,
        x ∈ st.similar_tracks ∨ x ∈ cands) ∧
      (∀ x ∈ (scanSeed ctx sc cands st fs acc).filtered_by_seeds_tracks,
        x ∈ st.filtered_by_seeds_tracks ∨ x ∈ cands) ∧
      (∀ x ∈ (scanSeed ctx sc cands st fs acc).filtered_by_current_tracks,
        x ∈ st.filtered_by_current_tracks ∨ x ∈ cands) ∧
      (∀ x ∈ (scanSeed ctx sc cands st fs acc).filtered_by_previous_tracks,
        x ∈ st.filtered_by_previous_tracks ∨ x ∈ cands) ∧
      (∀ p ∈ (scanSeed ctx sc cands st fs acc).matched_artists, ∀ x ∈ p.2.tracks,
        (∃ q ∈ st.matched_artists, x ∈ q.2.tracks) ∨ x ∈ cands) := by
  intro cands
  induction cands with
  | nil =>
    intro st fs acc
    simp only [scanSeed]
    exact ⟨fun x hx => Or.inl hx, fun x hx => Or.inl hx, fun x hx => Or.inl hx,
      fun x hx => Or.inl hx, fun p hp x hx => Or.inl ⟨p, hp, hx⟩⟩
  | cons t rest ih =>
    intro st fs acc
    have hcl := classifyTrack_mem_spec ctx st t
    simp only [scanSeed]
    split
    next =>
      exact ⟨fun x hx => Or.inl hx, fun x hx => Or.inl hx, fun x hx => Or.inl hx,
        fun x hx => Or.inl hx, fun p hp x hx => Or.inl ⟨p, hp, hx⟩⟩
    next =>
      split
      next =>
        split
        next =>
          exact ⟨from_classify rest hcl.1, from_classify rest hcl.2.1,
            from_classify rest hcl.2.2.1, from_classify rest hcl.2.2.2.1,
            pool_from_classify rest hcl.2.2.2.2⟩
        next =>
          have hrec := ih (classifyTrack ctx st t).1
            (some ((fs.getD (ctx.similarity t)))) (acc + 1)
          exact ⟨from_step hcl.1 hrec.1, from_step hcl.2.1 hrec.2.1,
            from_step hcl.2.2.1 hrec.2.2.1, from_step hcl.2.2.2.1 hrec.2.2.2.1,
            pool_from_step hcl.2.2.2.2 hrec.2.2.2.2⟩
      next =>
        have hrec := ih (classifyTrack ctx st t).1
          (some ((fs.getD (ctx.similarity t)))) acc
        exact ⟨from_step hcl.1 hrec.1, from_step hcl.2.1 hrec.2.1,
          from_step hcl.2.2.1 hrec.2.2.1, from_step hcl.2.2.2.1 hrec.2.2.2.1,
          pool_from_step hcl.2.2.2.2 hrec.2.2.2.2⟩

/-- Provenance over the seed loop: every track in any output list or pool
of the accumulated state was in the initial state or in the candidate list
of some seed. -/
lemma runSeeds_mem {α : Type} (sc : Nat) :
    ∀ (sd : List (SeedCtx α × List α)) (st : ScanState α),
      (∀ x ∈ (runSeeds sc sd st).similar_tracks,
        x ∈ st.similar_tracks ∨ ∃ p ∈ sd, x ∈ p.2) ∧
      (∀ x ∈ (runSeeds sc sd st).filtered_by_seeds_tracks,
        x ∈ st.filtered_by_seeds_tracks ∨ ∃ p ∈ sd, x ∈ p.2) ∧
      (∀ x ∈ (runSeeds sc sd st).filtered_by_current_tracks,
        x ∈ st.filtered_by_current_tracks ∨ ∃ p ∈ sd, x ∈ p.2) ∧
      (∀ x ∈ (runSeeds sc sd st).filtered_by_previous_tracks,
        x ∈ st.filtered_by_previous_tracks ∨ ∃ p ∈ sd, x ∈ p.2) ∧
      (∀ p ∈ (runSeeds sc sd st).matched_artists, ∀ x ∈ p.2.tracks,
        (∃ q ∈ st.matched_artists, x ∈ q.2.tracks) ∨ ∃ p ∈ sd, x ∈ p.2) := by
  intro sd
  induction sd with
  | nil =>
    intro st
    simp only [runSeeds, List.foldl_nil]
    exact ⟨fun x hx => Or.inl hx, fun x hx => Or.inl hx, fun x hx => Or.inl hx,
      fun x hx => Or.inl hx, fun p hp x hx => Or.inl ⟨p, hp, hx⟩⟩
  | cons c sd' ih =>
    intro st
    have hscan := scanSeed_mem c.1 sc c.2 st none 0
    have hrec := ih (scanSeed c.1 sc c.2 st none 0)
    have hout : runSeeds sc (c :: sd') st
        = runSeeds sc sd' (scanSeed c.1 sc c.2 st none 0) := by
      simp [runSeeds, List.foldl_cons]
    rw [hout]
    have lift : ∀ (f : ScanState α → List α),
        (∀ x ∈ f (runSeeds sc sd' (scanSeed c.1 sc c.2 st none 0)),
          x ∈ f (scanSeed c.1 sc c.2 st none 0) ∨ ∃ p ∈ sd', x ∈ p.2) →
        (∀ x ∈ f (scanSeed c.1 sc c.2 st none 0), x ∈ f st ∨ x ∈ c.2) →
        ∀ x ∈ f (runSeeds sc sd' (scanSeed c.1 sc c.2 st none 0)),
          x ∈ f st ∨ ∃ p ∈ c :: sd', x ∈ p.2 := by
      intro f h1 h2 x hx
      rcases h1 x hx with h | ⟨p, hp, hxp⟩
      · rcases h2 x h with h' | h'
        · exact Or.inl h'
        · exact Or.inr ⟨c, List.mem_cons_self _ _, h'⟩
      · exact Or.inr ⟨p, List.mem_cons_of_mem _ hp, hxp⟩
    refine ⟨lift (fun s => s.similar_tracks) hrec.1 hscan.1,
      lift (fun s => s.filtered_by_seeds_tracks) hrec.2.1 hscan.2.1,
      lift (fun s => s.filtered_by_current_tracks) hrec.2.2.1 hscan.2.2.1,
      lift (fun s => s.filtered_by_previous_tracks) hrec.2.2.2.1 hscan.2.2.2.1,
      ?_⟩
    intro p hp x hx
    rcases hrec.2.2.2.2 p hp x hx with h | ⟨q, hq, hxq⟩
    · rcases h with ⟨q, hq, hxq⟩
      rcases hscan.2.2.2.2 q hq x hxq with h' | h'
      · exact Or.inl h'
      · exact Or.inr ⟨c, List.mem_cons_self _ _, h'⟩
    · exact Or.inr ⟨q, List.mem_cons_of_mem _ hq, hxq⟩

lemma pickAt_mem {α : Type} (choose : List α → Nat) (l : List α) (h : 0 < l.length) :
    pickAt choose l h ∈ l := by
  unfold pickAt
  exact List.get_mem _ _ _

lemma mem_set_cases {α : Type} :
    ∀ (l : List α) (i : Nat) (v x : α), x ∈ l.set i v → x ∈ l ∨ x = v := by
  intro l
  induction l with
  | nil =>
    intro i v x hx
    simp at hx
  | cons a l ih =>
    intro i v x hx
    cases i with
    | zero =>
      simp only [List.set] at hx
      rcases List.mem_cons.mp hx with rfl | h
      · exact Or.inr rfl
      · exact Or.inl (List.mem_cons_of_mem _ h)
    | succ i =>
      simp only [List.set] at hx
      rcases List.mem_cons.mp hx with rfl | h
      · exact Or.inl (List.mem_cons_self _ _)
      · rcases ih i v x h with h' | h'
        · exact Or.inl (List.mem_cons_of_mem _ h')
        · exact Or.inr h'

lemma applyMatchedArtists_mem {α : Type} (choose : List α → Nat) :
    ∀ (m : List (List Char × MatchedEntry α)) (similar : List α) (x : α),
      x ∈ applyMatchedArtists choose m similar →
      x ∈ similar ∨ ∃ p ∈ m, x ∈ p.2.tracks := by
  intro m
  induction m with
  | nil =>
    intro similar x hx
    exact Or.inl hx
  | cons p m ih =>
    intro similar x hx
    have hx' : x ∈ applyMatchedArtists choose m
        (if h : 1 < p.2.tracks.length then
          similar.set p.2.pos (pickAt choose p.2.tracks (by omega))
        else similar) := hx
    rcases ih _ x hx' with h | ⟨q, hq, hxq⟩
    · split at h
      · rcases mem_set_cases _ _ _ _ h with h' | rfl
        · exact Or.inl h'
        · exact Or.inr ⟨p, List.mem_cons_self _ _, pickAt_mem _ _ _⟩
      · exact Or.inl h
    · exact Or.inr ⟨q, List.mem_cons_of_mem _ hq, hxq⟩

lemma sortBySim_mem {α : Type} (sim : α → ℚ) (l : List α) (x : α) :
    x ∈ sortBySim sim l ↔ x ∈ l :=
  (List.perm_insertionSort _ l).mem_iff

lemma backfillStep_mem {α : Type} (sim : α → ℚ) (l pool : List α) :
    ∀ x ∈ backfillStep sim l pool, x ∈ l ∨ x ∈ pool := by
  intro x hx
  unfold backfillStep at hx
  split at hx
  · rcases List.mem_append.mp hx with h | h
    · exact Or.inl h
    · exact Or.inr ((sortBySim_mem sim pool x).mp
        (List.Sublist.mem h (List.take_sublist _ _)))
  · exact Or.inl hx

/-- Provenance of the request tail: every returned track was accepted, sat
in one of the filtered lists, or sat in an alternates pool. -/
lemma postProcess_mem {α : Type} (sim : α → ℚ) (choose : List α → Nat)
    (perm : List α → List α) (shuffle : Bool) (count : Nat) (st : ScanState α)
    (hperm : ∀ (l : List α) (x : α), x ∈ perm l → x ∈ l) :
    ∀ x ∈ postProcess sim choose perm shuffle count st,
      x ∈ st.similar_tracks ∨ x ∈ st.filtered_by_previous_tracks ∨
      x ∈ st.filtered_by_current_tracks ∨ x ∈ st.filtered_by_seeds_tracks ∨
      ∃ p ∈ st.matched_artists, x ∈ p.2.tracks := by
  intro x hx
  have hx1 : x ∈ mergedTracks sim choose st := by
    cases shuffle
    · rw [show postProcess sim choose perm false count st
          = (sortBySim sim (mergedTracks sim choose st)).take count from rfl] at hx
      exact (sortBySim_mem sim _ x).mp (List.Sublist.mem hx (List.take_sublist _ _))
    · rw [show postProcess sim choose perm true count st
          = (perm ((sortBySim sim (mergedTracks sim choose st)).take
              (count * SHUFFLE_FACTOR))).take count from rfl] at hx
      have h1 := List.Sublist.mem hx (List.take_sublist _ _)
      have h2 := hperm _ x h1
      exact (sortBySim_mem sim _ x).mp (List.Sublist.mem h2 (List.take_sublist _ _))
  unfold mergedTracks at hx1
  rcases backfillStep_mem sim _ _ x hx1 with h1 | h1
  · rcases backfillStep_mem sim _ _ x h1 with h2 | h2
    · rcases backfillStep_mem sim _ _ x h2 with h3 | h3
      · rcases applyMatchedArtists_mem choose _ _ x h3 with h4 | h4
        · exact Or.inl h4
        · exact Or.inr (Or.inr (Or.inr (Or.inr h4)))
      · exact Or.inr (Or.inl h3)
    · exact Or.inr (Or.inr (Or.inl h2))
  · exact Or.inr (Or.inr (Or.inr (Or.inl h1)))

/-- C6: for every request with duration bounds (0 meaning no bound on that
side), every track of the final response comes from a catalog row whose
ignore flag is not 1 and whose duration lies inside the requested window,
provided every per-seed candidate list is produced by the (spec-modelled)
duration- and skip-filtering get_similar_tracks revision. -/
theorem duration_window_respected (rows : List TrackRow) (db : TracksDb)
    (hload : loadDb rows = some db)
    (min_duration max_duration : Int) (skip_rows : List Nat)
    (seedsData : List (SeedCtx DbTrack × List DbTrack))
    (hsrc : ∀ p ∈ seedsData, ∀ x ∈ p.2,
      x ∈ respModel db min_duration max_duration skip_rows)
    (sim : DbTrack → ℚ) (choose : List DbTrack → Nat) (perm : List DbTrack → List DbTrack)
    (shuffle : Bool) (count : Nat)
    (hperm : ∀ (l : List DbTrack) (x : DbTrack), x ∈ perm l → x ∈ l) :
    ∀ x ∈ similar_pipeline sim choose perm shuffle count seedsData,
      (∃ r ∈ rows, r.ignore ≠ 1 ∧ x.rowid = r.rowid ∧ x.duration = r.duration) ∧
      durationOk min_duration max_duration x.duration = true := by
  intro x hx
  have hpost := postProcess_mem sim choose perm shuffle count
    (runSeeds (similarity_count shuffle count) seedsData (ScanState.empty DbTrack))
    hperm x hx
  have hrun := runSeeds_mem (α := DbTrack) (similarity_count shuffle count) seedsData
    (ScanState.empty DbTrack)
  have hcand : ∃ p ∈ seedsData, x ∈ p.2 := by
    rcases hpost with h | h | h | h | h
    · rcases hrun.1 x h with h' | h'
      · simp [ScanState.empty] at h'
      · exact h'
    · rcases hrun.2.2.2.1 x h with h' | h'
      · simp [ScanState.empty] at h'
      · exact h'
    · rcases hrun.2.2.1 x h with h' | h'
      · simp [ScanState.empty] at h'
      · exact h'
    · rcases hrun.2.1 x h with h' | h'
      · simp [ScanState.empty] at h'
      · exact h'
    · rcases h with ⟨p, hp, hxp⟩
      rcases hrun.2.2.2.2 p hp x hxp with h' | h'
      · rcases h' with ⟨q, hq, _⟩
        simp [ScanState.empty] at hq
      · exact h'
  rcases hcand with ⟨p, hp, hxp⟩
  have hresp := respModel_spec db min_duration max_duration skip_rows x (hsrc p hp x hxp)
  exact ⟨loadDb_tracks rows db hload x hresp.1, hresp.2⟩

/-- Concrete catalog row with duration 200 and the given bpm. -/
def rowD (n : Nat) (bpm : ℚ) : TrackRow :=
  { file := [], title := [], artist := [], album := [], albumartist := [], genre := [],
    duration := 200, ignore := 0, rowid := n, attrs := List.replicate 11 0 ++ [bpm] }

/-- Concrete two-row catalog with distinct bpm values, so the load
succeeds. -/
def rowsD : List TrackRow := [rowD 0 100, rowD 1 120]

/-- Database loaded from the concrete catalog. -/
def dbD : TracksDb := (loadDb rowsD).getD { tracks := [], attribs := [] }

/-- Scan context over loaded tracks whose predicates all answer no. -/
def ctxD : SeedCtx DbTrack :=
  { similarity := fun _ => 0, artist := fun t => t.artist, title := fun _ => none,
    match_genre := false, match_all_genres := false, exclude_christmas := false,
    do_exclude_artists := false, do_exclude_albums := false,
    genre_matches := fun _ => false, is_christmas := fun _ => false,
    match_artist := fun _ => false, match_album := fun _ => false,
    same_as_seeds := fun _ => false, same_as_current := fun _ _ => false,
    same_as_previous := fun _ _ _ => false, match_title := fun _ _ => false }

/-- First loaded track of the concrete database. -/
def tD : DbTrack := dbD.tracks.getD 0 (trackG 0)

unseal Rat.add Rat.sub Rat.mul Rat.inv in
/-- Witness for C6: on the concrete catalog, the first track of the
response of a request without duration bounds comes from a non-ignored row
and satisfies the duration window. -/
theorem duration_window_respected_witness :
    (∃ r ∈ rowsD, r.ignore ≠ 1 ∧ tD.rowid = r.rowid ∧ tD.duration = r.duration) ∧
    durationOk 0 0 tD.duration = true :=
  duration_window_respected rowsD dbD (by decide) 0 0 []
    [(ctxD, respModel dbD 0 0 [])]
    (fun p hp x hx => by
      rcases List.mem_singleton.mp hp with rfl
      exact hx)
    (fun _ => 0) (fun _ => 0) id false 5
    (fun _ x hx => hx)
    tD (by decide)

/-! ### String lemmas for the cue-path round trip (C10) -/

/-- A list starts with a pattern exactly when it is the pattern followed by a
remainder. -/
lemma startsWith_iff (p s : List Char) :
    startsWith p s = true ↔ ∃ t, s = p ++ t := by
  induction p generalizing s with
  | nil => simp [startsWith]
  | cons c p ih =>
    cases s with
    | nil => simp [startsWith]
    | cons d t =>
      simp only [startsWith, Bool.and_eq_true, beq_iff_eq, ih, List.cons_append,
        List.cons.injEq]
      constructor
      · rintro ⟨rfl, u, rfl⟩; exact ⟨u, rfl, rfl⟩
      · rintro ⟨u, rfl, rfl⟩; exact ⟨rfl, u, rfl⟩

/-- A string contains a pattern as a contiguous substring exactly when it
splits around it. -/
lemma containsSub_iff (s pat : List Char) :
    containsSub s pat = true ↔ ∃ u w, s = u ++ pat ++ w := by
  unfold containsSub
  constructor
  · intro h
    induction s with
    | nil =>
      simp only [subFind] at h
      by_cases hp : pat = ([] : List Char)
      · exact ⟨[], [], by simp [hp]⟩
      · rw [if_neg hp] at h; cases h
    | cons c t ih =>
      simp only [subFind] at h
      by_cases hsw : startsWith pat (c :: t) = true
      · rcases (startsWith_iff _ _).mp hsw with ⟨x, hx⟩
        exact ⟨[], x, by simp [hx]⟩
      · rw [if_neg hsw] at h
        have h' : (subFind pat t).isSome = true := by
          cases hsf : subFind pat t with
          | none => rw [hsf] at h; cases h
          | some k => rfl
        rcases ih h' with ⟨u, w, hw⟩
        exact ⟨c :: u, w, by simp [hw]⟩
  · rintro ⟨u, w, rfl⟩
    induction u with
    | nil =>
      cases pat with
      | nil => cases w <;> simp [subFind, startsWith]
      | cons c p =>
        have hsw : startsWith (c :: p) ((c :: p) ++ w) = true :=
          (startsWith_iff _ _).mpr ⟨w, rfl⟩
        simp only [List.nil_append, List.cons_append, subFind, List.append_eq] at hsw ⊢
        rw [if_pos hsw]
        rfl
    | cons c u ih =>
      simp only [List.cons_append, subFind, List.append_eq]
      by_cases hsw : startsWith pat (c :: (u ++ pat ++ w)) = true
      · rw [if_pos hsw]; rfl
      · rw [if_neg hsw]
        simp only [List.cons_append] at ih
        cases hsf : subFind pat (u ++ pat ++ w) with
        | none => rw [hsf] at ih; cases ih
        | some k => rfl

/-- A false containment test rules out every split around the pattern. -/
lemma not_hasSub_of_containsSub_false {s pat : List Char}
    (h : containsSub s pat = false) : ∀ u w, s ≠ u ++ pat ++ w := by
  intro u w huw
  have ht := (containsSub_iff s pat).mpr ⟨u, w, huw⟩
  rw [ht] at h
  cases h

/-- If the pattern starts at the border of an append and no occurrence starts
earlier, the find index is the border. -/
lemma subFind_eq_append (a r pat : List Char)
    (hs : startsWith pat r = true)
    (hno : ∀ u w, a ++ r = u ++ pat ++ w → a.length ≤ u.length) :
    subFind pat (a ++ r) = some a.length := by
  induction a with
  | nil =>
    cases r with
    | nil =>
      cases pat with
      | nil => simp [subFind]
      | cons c t => simp [startsWith] at hs
    | cons c t =>
      simp only [List.nil_append, subFind]
      rw [if_pos hs]
      rfl
  | cons c a ih =>
    have hhead : ¬ startsWith pat (c :: (a ++ r)) = true := by
      rw [startsWith_iff]
      rintro ⟨t, ht⟩
      have h0 := hno [] t (by simp [ht])
      simp at h0
    simp only [List.cons_append, subFind, List.append_eq]
    rw [if_neg hhead]
    rw [ih (fun u w huw => by
      have := hno (c :: u) w (by simp [huw])
      simpa using this)]
    rfl

/-- Replacement skips over a prefix that holds no occurrence start. -/
lemma replaceSub_append (a r pat rep : List Char)
    (hno : ∀ u w, a ++ r = u ++ pat ++ w → a.length ≤ u.length) :
    replaceSub pat rep (a ++ r) = a ++ replaceSub pat rep r := by
  induction a with
  | nil => simp
  | cons c a ih =>
    have hhead : ¬ (pat ≠ [] ∧ startsWith pat (c :: (a ++ r)) = true) := by
      rintro ⟨-, hsw⟩
      rcases (startsWith_iff _ _).mp hsw with ⟨t, ht⟩
      have h0 := hno [] t (by simp [ht])
      simp at h0
    simp only [List.cons_append, replaceSub, List.append_eq]
    rw [if_neg hhead]
    rw [ih (fun u w huw => by
      have := hno (c :: u) w (by simp [huw])
      simpa using this)]

/-- Replacement fires on a pattern sitting at the head. -/
lemma replaceSub_head (pat rep v : List Char) (hp : pat ≠ []) :
    replaceSub pat rep (pat ++ v) = rep ++ replaceSub pat rep v := by
  cases pat with
  | nil => exact absurd rfl hp
  | cons c t =>
    have hsw : startsWith (c :: t) (c :: (t ++ v)) = true :=
      (startsWith_iff _ _).mpr ⟨v, by simp⟩
    simp only [List.cons_append, replaceSub, List.append_eq]
    rw [if_pos ⟨hp, hsw⟩]
    simp [List.drop_succ_cons, List.drop_left]

/-- Replacement on a string free of the pattern is the identity. -/
lemma replaceSub_id (pat rep s : List Char)
    (hno : ∀ u w, s ≠ u ++ pat ++ w) :
    replaceSub pat rep s = s := by
  induction s with
  | nil => simp [replaceSub]
  | cons c t ih =>
    have hhead : ¬ (pat ≠ [] ∧ startsWith pat (c :: t) = true) := by
      rintro ⟨-, hsw⟩
      rcases (startsWith_iff _ _).mp hsw with ⟨x, hx⟩
      exact hno [] x (by simp [hx])
    simp only [replaceSub]
    rw [if_neg hhead]
    rw [ih (fun u w huw => hno (c :: u) w (by simp [huw]))]

/-- When the string does not begin with the pattern, every occurrence starts
at index at least one. -/
lemma one_le_occ {s pat : List Char} (h : startsWith pat s = false)
    {u w : List Char} (huw : s = u ++ pat ++ w) : 1 ≤ u.length := by
  cases u with
  | nil =>
    exfalso
    have hsw : startsWith pat s = true :=
      (startsWith_iff _ _).mpr ⟨w, by simpa using huw⟩
    rw [hsw] at h
    cases h
  | cons x xs => simp

/-- An occurrence starting inside the left part of an append makes the suffix
of the left part from that point a start of the pattern. -/
lemma occ_split {a rest u w : List Char}
    (heq : a ++ rest = u ++ CUE_TRACK ++ w) (hlt : u.length < a.length) :
    startsWith CUE_TRACK (a.drop u.length ++ rest) = true := by
  apply (startsWith_iff _ _).mpr
  refine ⟨w, ?_⟩
  have hdrop := congrArg (List.drop u.length) heq
  rw [List.drop_append_eq_append_drop, Nat.sub_eq_zero_of_le (le_of_lt hlt),
    List.drop_zero, List.append_assoc, List.drop_left] at hdrop
  exact hdrop

/-- Any list of which the cue marker is a start either begins with the whole
marker or is a proper prefix of it whose complement starts the remainder. -/
lemma startsWith_cue_decomp (a y : List Char)
    (h : startsWith CUE_TRACK (a ++ y) = true) :
    (∃ w, a = CUE_TRACK ++ w) ∨
    (a.length < 11 ∧ a = CUE_TRACK.take a.length ∧
      CUE_TRACK.drop a.length = y.take (11 - a.length)) := by
  rcases (startsWith_iff _ _).mp h with ⟨t, ht⟩
  have hlen : CUE_TRACK.length = 11 := rfl
  by_cases hj : 11 ≤ a.length
  · left
    have h1 := congrArg (List.take a.length) ht
    rw [List.take_left, List.take_append_eq_append_take, hlen,
      List.take_of_length_le (by rw [hlen]; exact hj)] at h1
    exact ⟨t.take (a.length - 11), h1⟩
  · right
    push_neg at hj
    have h2 := congrArg (List.take a.length) ht
    rw [List.take_left, List.take_append_eq_append_take, hlen,
      Nat.sub_eq_zero_of_le (le_of_lt hj), List.take_zero, List.append_nil] at h2
    have h3 := congrArg (List.drop a.length) ht
    rw [List.drop_left, List.drop_append_eq_append_drop, hlen,
      Nat.sub_eq_zero_of_le (le_of_lt hj), List.drop_zero] at h3
    refine ⟨hj, h2, ?_⟩
    rw [h3, List.take_append_eq_append_take, List.length_drop, hlen,
      List.take_of_length_le (by rw [List.length_drop, hlen]),
      Nat.sub_self, List.take_zero, List.append_nil]

/-- Only the last position of the cue marker survives an overlap with its own
start. -/
lemma cue_overlap_self : ∀ j < 11, 1 ≤ j →
    CUE_TRACK.drop j = CUE_TRACK.take (11 - j) → j = 10 := by decide

/-- Only the last position of the cue marker survives an overlap with the
mp3 suffix. -/
lemma cue_overlap_mp3 : ∀ j < 11, 1 ≤ j →
    CUE_TRACK.drop j = ".mp3".toList.take (11 - j) → j = 10 := by decide

/-- The cue marker is its stem followed by a dot. -/
lemma cue_eq_stem_dot : CUE_TRACK = ".CUE_TRACK".toList ++ ['.'] := by decide

/-- The first ten characters of the cue marker form its stem. -/
lemma cue_take_ten : CUE_TRACK.take 10 = ".CUE_TRACK".toList := by decide

/-- If the original path avoids the cue stem, no occurrence of the cue marker
in the converted path starts before the border. -/
lemma no_occ_before (a b : List Char)
    (hstem : containsSub (a ++ '#' :: b) ".CUE_TRACK".toList = false) :
    ∀ u w, a ++ (CUE_TRACK ++ (b ++ ".mp3".toList)) = u ++ CUE_TRACK ++ w →
      a.length ≤ u.length := by
  intro u w heq
  by_contra hge
  push_neg at hge
  have hsw := occ_split heq hge
  have hj1 : 1 ≤ (a.drop u.length).length := by
    rw [List.length_drop]; omega
  rcases startsWith_cue_decomp _ _ hsw with ⟨w', hw'⟩ | ⟨hjlt, hpre, hsuf⟩
  · have hc : containsSub (a ++ '#' :: b) ".CUE_TRACK".toList = true := by
      apply (containsSub_iff _ _).mpr
      refine ⟨a.take u.length, ('.' :: w') ++ '#' :: b, ?_⟩
      conv_lhs => rw [← List.take_append_drop u.length a, hw', cue_eq_stem_dot]
      simp
    rw [hstem] at hc
    exact Bool.noConfusion hc
  · have htake : (CUE_TRACK ++ (b ++ ".mp3".toList)).take (11 - (a.drop u.length).length)
        = CUE_TRACK.take (11 - (a.drop u.length).length) := by
      rw [List.take_append_eq_append_take,
        show 11 - (a.drop u.length).length - CUE_TRACK.length = 0 from by
          rw [show CUE_TRACK.length = 11 from rfl]; omega,
        List.take_zero, List.append_nil]
    rw [htake] at hsuf
    have hj10 := cue_overlap_self _ hjlt hj1 hsuf
    have hstem10 : a.drop u.length = ".CUE_TRACK".toList := by
      conv_lhs => rw [hpre, hj10]
      exact cue_take_ten
    have hc : containsSub (a ++ '#' :: b) ".CUE_TRACK".toList = true := by
      apply (containsSub_iff _ _).mpr
      refine ⟨a.take u.length, '#' :: b, ?_⟩
      conv_lhs => rw [← List.take_append_drop u.length a, hstem10]
    rw [hstem] at hc
    exact Bool.noConfusion hc

/-- If the original path avoids the cue stem, the part after the hash followed
by the mp3 suffix holds no occurrence of the cue marker at all. -/
lemma no_occ_tail (a b : List Char)
    (hstem : containsSub (a ++ '#' :: b) ".CUE_TRACK".toList = false) :
    ∀ u w, b ++ ".mp3".toList ≠ u ++ CUE_TRACK ++ w := by
  intro u w heq
  by_cases hlt : u.length < b.length
  · have hsw := occ_split heq hlt
    have hj1 : 1 ≤ (b.drop u.length).length := by
      rw [List.length_drop]; omega
    rcases startsWith_cue_decomp _ _ hsw with ⟨w', hw'⟩ | ⟨hjlt, hpre, hsuf⟩
    · have hc : containsSub (a ++ '#' :: b) ".CUE_TRACK".toList = true := by
        apply (containsSub_iff _ _).mpr
        refine ⟨a ++ '#' :: b.take u.length, '.' :: w', ?_⟩
        conv_lhs =>
          rw [show b = b.take u.length ++ b.drop u.length from
            (List.take_append_drop _ _).symm, hw', cue_eq_stem_dot]
        simp
      rw [hstem] at hc
      exact Bool.noConfusion hc
    · have hj10 := cue_overlap_mp3 _ hjlt hj1 hsuf
      have hstem10 : b.drop u.length = ".CUE_TRACK".toList := by
        conv_lhs => rw [hpre, hj10]
        exact cue_take_ten
      have hc : containsSub (a ++ '#' :: b) ".CUE_TRACK".toList = true := by
        apply (containsSub_iff _ _).mpr
        refine ⟨a ++ '#' :: b.take u.length, [], ?_⟩
        conv_lhs =>
          rw [show b = b.take u.length ++ b.drop u.length from
            (List.take_append_drop _ _).symm, hstem10]
        simp
      rw [hstem] at hc
      exact Bool.noConfusion hc
  · push_neg at hlt
    have hl := congrArg List.length heq
    simp only [List.length_append] at hl
    rw [show (".mp3".toList).length = 4 from rfl,
      show CUE_TRACK.length = 11 from rfl] at hl
    omega

/-- The first hash of a hash-free part followed by a hash sits at the border. -/
lemma findIdx_hash (a b : List Char) (ha : '#' ∉ a) :
    (a ++ '#' :: b).findIdx? (· == '#') = some a.length := by
  suffices h : ∀ (l : List Char), '#' ∉ l →
      ∀ i, (l ++ '#' :: b).findIdx? (· == '#') i = some (l.length + i) by
    simpa using h a ha 0
  intro l
  induction l with
  | nil => intro _ i; simp [List.findIdx?_cons]
  | cons c t ih =>
    intro hmem i
    have hc : (c == '#') = false := by
      have : c ≠ '#' := fun h => hmem (by simp [h])
      simp [this]
    rw [List.cons_append, List.findIdx?_cons, hc]
    simp only [Bool.false_eq_true, if_false]
    rw [ih (fun h => hmem (List.mem_cons_of_mem _ h)) (i + 1)]
    simp only [List.length_cons]
    congr 1
    omega

/-- Character replacement leaves a list without the character unchanged. -/
lemma flatMap_hash_id (l : List Char) (hl : '#' ∉ l) :
    l.flatMap (fun x => if x == '#' then CUE_TRACK else [x]) = l := by
  induction l with
  | nil => simp
  | cons c t ih =>
    have hc : (c == '#') = false := by
      have : c ≠ '#' := fun h => hl (by simp [h])
      simp [this]
    rw [List.flatMap_cons, hc]
    simp only [Bool.false_eq_true, if_false]
    rw [ih (fun h => hl (List.mem_cons_of_mem _ h))]
    rfl

/-- Replacing the single hash of a path expands it to the cue marker. -/
lemma replaceChar_expand (a b : List Char) (ha : '#' ∉ a) (hb : '#' ∉ b) :
    replaceChar '#' CUE_TRACK (a ++ '#' :: b) = a ++ (CUE_TRACK ++ b) := by
  unfold replaceChar
  rw [List.flatMap_append, flatMap_hash_id a ha, List.flatMap_cons,
    flatMap_hash_id b hb]
  simp [List.append_assoc]

/-- Splitting a separator-free list is the singleton of the list. -/
lemma splitOnChar_no_sep (l : List Char) (hl : '#' ∉ l) :
    splitOnChar '#' l = [l] := by
  induction l with
  | nil => rfl
  | cons c t ih =>
    have hc : (c == '#') = false := by
      have : c ≠ '#' := fun h => hl (by simp [h])
      simp [this]
    rw [splitOnChar, hc]
    simp only [Bool.false_eq_true, if_false]
    rw [ih (fun h => hl (List.mem_cons_of_mem _ h))]

/-- Splitting around a single separator yields the two surrounding parts. -/
lemma splitOnChar_exact (a r : List Char) (ha : '#' ∉ a) (hr : '#' ∉ r) :
    splitOnChar '#' (a ++ '#' :: r) = [a, r] := by
  induction a with
  | nil =>
    rw [List.nil_append, splitOnChar]
    simp only [beq_self_eq_true, if_true]
    rw [splitOnChar_no_sep r hr]
  | cons c a ih =>
    have hc : (c == '#') = false := by
      have : c ≠ '#' := fun h => ha (by simp [h])
      simp [this]
    rw [List.cons_append, splitOnChar, hc]
    simp only [Bool.false_eq_true, if_false]
    rw [ih (fun h => ha (List.mem_cons_of_mem _ h))]

/-- C10 (corrected): for a path split as a hash-free non-empty prefix, one
hash and a hash-free suffix, whose characters avoid even the stem
".CUE_TRACK" of the reserved marker, and whose pre-hash prefix (the only part
the source percent-quotes) is quote-invariant, the round trip yields
file:// plus the original path; and on a path with no hash and no marker both
conversions are the identity.  The claim's weaker containment hypothesis
(only the dotted marker ".CUE_TRACK." is excluded) is refuted by
cue_round_trip_counterexample: a prefix ending in the stem merges with the
marker inserted for the hash and the round trip scrambles the path. -/
theorem cue_round_trip :
    (∀ a b : List Char, a ≠ [] → '#' ∉ a → '#' ∉ b →
        containsSub (a ++ '#' :: b) ".CUE_TRACK".toList = false →
        percentQuote a = a →
        convert_to_cue_url (convert_from_cue_path (a ++ '#' :: b)) =
          "file://".toList ++ a ++ '#' :: b) ∧
    (∀ p : List Char, '#' ∉ p → containsSub p CUE_TRACK = false →
        convert_from_cue_path p = p ∧ convert_to_cue_url p = p) := by
  constructor
  · intro a b hne ha hb hstem hq
    have hbm : '#' ∉ b ++ ".mp3".toList := by
      intro h
      rcases List.mem_append.mp h with h | h
      · exact hb h
      · revert h; decide
    have h1 : convert_from_cue_path (a ++ '#' :: b)
        = a ++ (CUE_TRACK ++ (b ++ ".mp3".toList)) := by
      unfold convert_from_cue_path
      rw [findIdx_hash a b ha]
      dsimp only
      rw [if_pos (List.length_pos.mpr hne)]
      rw [replaceChar_expand a b ha hb]
      simp [List.append_assoc]
    have h2 : subFind CUE_TRACK (a ++ (CUE_TRACK ++ (b ++ ".mp3".toList)))
        = some a.length :=
      subFind_eq_append _ _ _ ((startsWith_iff _ _).mpr ⟨b ++ ".mp3".toList, rfl⟩)
        (no_occ_before a b hstem)
    have h3 : replaceSub CUE_TRACK ['#'] (a ++ (CUE_TRACK ++ (b ++ ".mp3".toList)))
        = a ++ '#' :: (b ++ ".mp3".toList) := by
      rw [replaceSub_append _ _ _ _ (no_occ_before a b hstem),
        replaceSub_head _ _ _ (by decide),
        replaceSub_id _ _ _ (no_occ_tail a b hstem)]
      rfl
    have h4 : splitOnChar '#' (a ++ '#' :: (b ++ ".mp3".toList))
        = [a, b ++ ".mp3".toList] :=
      splitOnChar_exact a _ ha hbm
    rw [h1]
    unfold convert_to_cue_url
    rw [h2]
    dsimp only
    rw [if_pos (List.length_pos.mpr hne)]
    simp only [h3, h4, List.headD_cons, List.getD_cons_succ, List.getD_cons_zero, hq]
    have hout : "file://".toList ++ a ++ '#' :: (b ++ ".mp3".toList)
        = ("file://".toList ++ a ++ '#' :: b) ++ ".mp3".toList := by
      simp
    rw [hout, List.length_append, show (".mp3".toList).length = 4 from rfl,
      Nat.add_sub_cancel, List.take_left]
  · intro p hp hcue
    constructor
    · unfold convert_from_cue_path
      rw [show p.findIdx? (· == '#') = none from List.findIdx?_eq_none_iff.mpr
        (fun x hx => by
          have hx' : x ≠ '#' := fun h => hp (h ▸ hx)
          simp [hx'])]
    · unfold convert_to_cue_url
      have hsf : subFind CUE_TRACK p = none := by
        cases hsf : subFind CUE_TRACK p with
        | none => rfl
        | some k =>
          have hc : containsSub p CUE_TRACK = true := by
            unfold containsSub; rw [hsf]; rfl
          rw [hcue] at hc
          exact Bool.noConfusion hc
      rw [hsf]

/-- C10 counterexample: the path a.CUE_TRACK#b has exactly one hash, at index
11 > 0, does not contain the reserved substring ".CUE_TRACK." of the claim,
and its pre-hash prefix (the only part the source percent-quotes) is
quote-invariant, yet the round trip returns file://a#CUE_TRACK.b instead of
file://a.CUE_TRACK#b: the prefix ends with the marker stem, so the marker
inserted for the hash is found one character early on the way back. -/
theorem cue_round_trip_counterexample :
    ("a.CUE_TRACK#b".toList.count '#' = 1 ∧
      "a.CUE_TRACK#b".toList.findIdx? (· == '#') = some 11 ∧
      containsSub "a.CUE_TRACK#b".toList CUE_TRACK = false ∧
      percentQuote "a.CUE_TRACK".toList = "a.CUE_TRACK".toList) ∧
    convert_to_cue_url (convert_from_cue_path "a.CUE_TRACK#b".toList) =
      "file://a#CUE_TRACK.b".toList ∧
    "file://a#CUE_TRACK.b".toList ≠ "file://".toList ++ "a.CUE_TRACK#b".toList := by
  refine ⟨by decide, ?_, by decide⟩
  have e1 : convert_from_cue_path "a.CUE_TRACK#b".toList
      = "a.CUE_TRACK.CUE_TRACK.b.mp3".toList := by decide
  rw [e1]
  have h2 : subFind CUE_TRACK "a.CUE_TRACK.CUE_TRACK.b.mp3".toList = some 1 := by
    decide
  have h3 : replaceSub CUE_TRACK ['#'] "a.CUE_TRACK.CUE_TRACK.b.mp3".toList
      = "a#CUE_TRACK.b.mp3".toList := by
    rw [show "a.CUE_TRACK.CUE_TRACK.b.mp3".toList
        = "a".toList ++ (CUE_TRACK ++ "CUE_TRACK.b.mp3".toList) from by decide]
    rw [replaceSub_append _ _ _ _ (fun u w huw => by
      have h1le := one_le_occ
        (s := "a".toList ++ (CUE_TRACK ++ "CUE_TRACK.b.mp3".toList)) (by decide) huw
      have hl1 : ("a".toList).length = 1 := rfl
      omega)]
    rw [replaceSub_head _ _ _ (by decide)]
    rw [replaceSub_id _ _ _ (not_hasSub_of_containsSub_false (by decide))]
    decide
  unfold convert_to_cue_url
  rw [h2]
  dsimp only
  rw [if_pos (by decide : (1:Nat) > 0)]
  simp only [h3]
  decide

/-- Witness for C10: the amended round trip at the path music/a#01 and the
identity pair at the plain path x.mp3. -/
theorem cue_round_trip_witness :
    convert_to_cue_url (convert_from_cue_path ("music/a".toList ++ '#' :: "01".toList))
      = "file://".toList ++ "music/a".toList ++ '#' :: "01".toList ∧
    convert_from_cue_path "x.mp3".toList = "x.mp3".toList ∧
    convert_to_cue_url "x.mp3".toList = "x.mp3".toList := by
  refine ⟨cue_round_trip.1 "music/a".toList "01".toList (by decide) (by decide)
    (by decide) (by decide) (by decide), ?_, ?_⟩
  · exact (cue_round_trip.2 "x.mp3".toList (by decide) (by decide)).1
  · exact (cue_round_trip.2 "x.mp3".toList (by decide) (by decide)).2

end EssentiaApi
